import Mathlib

/-!
A shallow embedding of the upload ingestion and retention pipeline of this
lolisafe fork, translated from `src/controllers/uploadController.js`, the
utils controller and the albums controller, together with theorems settling
the specification claims about chunked uploads, deduplication, bulk deletion,
retention inheritance, the list-filter quotas and the album ZIP generator.
-/

namespace Lolisafe

/-- Association-list lookup keyed by strings (JS plain-object property read). -/
def mlookup {α : Type} : List (String × α) → String → Option α
  | [], _ => none
  | (k2, v) :: rest, k => if k2 = k then some v else mlookup rest k

/-- Association-list insert/overwrite (JS plain-object property assignment). -/
def minsert {α : Type} : List (String × α) → String → α → List (String × α)
  | [], k, v => [(k, v)]
  | (k2, v2) :: rest, k, v =>
    if k2 = k then (k, v) :: rest else (k2, v2) :: minsert rest k v

/-- Association-list removal (JS `delete obj[key]`). -/
def mremove {α : Type} : List (String × α) → String → List (String × α)
  | [], _ => []
  | (k2, v2) :: rest, k =>
    if k2 = k then mremove rest k else (k2, v2) :: mremove rest k

/-- Boolean test that an `Except` value is a success. -/
def exceptIsOk {ε α : Type} : Except ε α → Bool
  | .ok _ => true
  | .error _ => false

theorem mlookup_minsert_self {α : Type} (m : List (String × α)) (k : String) (v : α) :
    mlookup (minsert m k v) k = some v := by
  induction m with
  | nil => simp [minsert, mlookup]
  | cons hd tl ih =>
    obtain ⟨k2, v2⟩ := hd
    by_cases h : k2 = k
    · subst h
      simp [minsert, mlookup]
    · simp only [minsert, if_neg h, mlookup]
      rw [ih]

theorem mlookup_minsert_ne {α : Type} (m : List (String × α)) (k k2 : String) (v : α)
    (h : k2 ≠ k) : mlookup (minsert m k v) k2 = mlookup m k2 := by
  induction m with
  | nil =>
    simp only [minsert, mlookup]
    rw [if_neg (Ne.symm h)]
  | cons hd tl ih =>
    obtain ⟨k3, v3⟩ := hd
    by_cases h3 : k3 = k
    · subst h3
      simp only [minsert, if_pos rfl, mlookup]
      rw [if_neg (Ne.symm h), if_neg (Ne.symm h)]
    · simp only [minsert, if_neg h3, mlookup]
      by_cases h2 : k3 = k2
      · rw [if_pos h2, if_pos h2]
      · rw [if_neg h2, if_neg h2, ih]

theorem mlookup_mremove {α : Type} (m : List (String × α)) (k k2 : String) :
    mlookup (mremove m k) k2 = if k2 = k then none else mlookup m k2 := by
  induction m with
  | nil => simp [mremove, mlookup]
  | cons hd tl ih =>
    obtain ⟨k3, v3⟩ := hd
    by_cases h3 : k3 = k
    · subst h3
      have hrm : mremove ((k3, v3) :: tl) k3 = mremove tl k3 := by simp [mremove]
      rw [hrm, ih]
      by_cases h2 : k2 = k3
      · rw [if_pos h2, if_pos h2]
      · rw [if_neg h2, if_neg h2]
        simp only [mlookup]
        rw [if_neg (Ne.symm h2)]
    · simp only [mremove, if_neg h3, mlookup, ih]
      by_cases h2 : k3 = k2
      · subst h2
        rw [if_pos rfl, if_neg h3, if_pos rfl]
      · rw [if_neg h2]
        by_cases hk : k2 = k
        · rw [if_pos hk, if_pos hk]
        · rw [if_neg hk, if_neg hk, if_neg h2]

/-! ### Chunked upload sessions (uploadController.js)

`class ChunksData` keeps, per namespaced UUID, the number of accepted chunks,
an append-mode write stream, an optional rolling BLAKE3 hasher and the
`processing` flag.  Streams are modelled by liveness flags; the idle timer and
the on-disk paths derived from the uuid carry no state the claims depend on. -/

structure ChunksData where
  chunks : Nat
  bytesWritten : Nat
  writeStreamLive : Bool
  hashStreamLive : Bool
  processing : Bool
deriving DecidableEq, Repr

abbrev ChunksMap := List (String × ChunksData)

/-- Message of the `ClientError` thrown by `initChunks` when the session is
still processing. -/
def serializationConflictMsg : String :=
  "Previous chunk upload is still being processed. Parallel chunked uploads is not supported."

/-- Translation of `initChunks` (uploadController.js 96-121): a missing entry is
created with `processing = true` (set in the `ChunksData` constructor), its
write stream opened in append mode and its hasher started when hashing is
enabled; an existing entry still marked `processing` makes the call throw the
serialization-conflict error; otherwise the entry is reused unchanged (only the
idle timer is reset). -/
def initChunks (enableHashing : Bool) (uuid : String) (m : ChunksMap) :
    Except String ChunksMap :=
  match mlookup m uuid with
  | none =>
    .ok (minsert m uuid
      { chunks := 0, bytesWritten := 0, writeStreamLive := true,
        hashStreamLive := enableHashing, processing := true })
  | some cd =>
    if cd.processing then .error serializationConflictMsg else .ok m

/-- Translation of uploadController.js 506-515: once the multipart body of a
chunk request has been written, the session counts one more chunk and
`processing` is set to `false`.  This is the only assignment to `processing`
after the constructor; nothing ever sets it back to `true` for a live session. -/
def completeChunkAppend (uuid : String) (bytes : Nat) (m : ChunksMap) : ChunksMap :=
  match mlookup m uuid with
  | none => m
  | some cd =>
    minsert m uuid
      { cd with chunks := cd.chunks + 1, bytesWritten := cd.bytesWritten + bytes,
                processing := false }

/-- The in-memory effect of `cleanUpChunks` (uploadController.js 867-888) on the
session table: the entry is deleted (`delete chunksData[uuid]`). -/
def removeChunkSession (uuid : String) (m : ChunksMap) : ChunksMap := mremove m uuid

/-- The operations that touch the chunk-session table: an arriving append runs
`initChunks` (a thrown serialization conflict leaves the table unchanged), a
completed append increments `chunks` and clears `processing`, and
`cleanUpChunks` deletes the entry.  `actuallyFinishChunks` only reads
`processing` before delegating to `cleanUpChunks`. -/
inductive ChunkOp
  | arrive (uuid : String)
  | complete (uuid : String) (bytes : Nat)
  | cleanup (uuid : String)
deriving DecidableEq, Repr

def applyChunkOp (enableHashing : Bool) (m : ChunksMap) : ChunkOp → ChunksMap
  | .arrive uuid =>
    match initChunks enableHashing uuid m with
    | .ok m2 => m2
    | .error _ => m
  | .complete uuid bytes => completeChunkAppend uuid bytes m
  | .cleanup uuid => removeChunkSession uuid m

/-- The session table reached by a sequence of operations from an empty table. -/
def runChunkOps (enableHashing : Bool) (ops : List ChunkOp) : ChunksMap :=
  ops.foldl (applyChunkOp enableHashing) []

/-- Invariant: a session whose `processing` flag is set has not completed any
chunk yet. -/
def ProcessingOnlyFirst (m : ChunksMap) : Prop :=
  ∀ uuid cd, mlookup m uuid = some cd → cd.processing = true → cd.chunks = 0

theorem processingOnlyFirst_applyChunkOp (eh : Bool) (m : ChunksMap) (op : ChunkOp)
    (h : ProcessingOnlyFirst m) : ProcessingOnlyFirst (applyChunkOp eh m op) := by
  cases op with
  | arrive uuid =>
    simp only [applyChunkOp, initChunks]
    cases hm : mlookup m uuid with
    | none =>
      intro u cd hcd hproc
      by_cases hu : u = uuid
      · subst hu
        rw [mlookup_minsert_self] at hcd
        cases hcd
        rfl
      · rw [mlookup_minsert_ne _ _ _ _ hu] at hcd
        exact h u cd hcd hproc
    | some cd0 =>
      by_cases hp : cd0.processing <;> simp [hp] <;> exact h
  | complete uuid bytes =>
    simp only [applyChunkOp, completeChunkAppend]
    cases hm : mlookup m uuid with
    | none => exact h
    | some cd0 =>
      intro u cd hcd hproc
      by_cases hu : u = uuid
      · subst hu
        rw [mlookup_minsert_self] at hcd
        cases hcd
        simp at hproc
      · rw [mlookup_minsert_ne _ _ _ _ hu] at hcd
        exact h u cd hcd hproc
  | cleanup uuid =>
    intro u cd hcd hproc
    simp only [applyChunkOp, removeChunkSession] at hcd
    rw [mlookup_mremove] at hcd
    by_cases hu : u = uuid
    · simp [hu] at hcd
    · rw [if_neg hu] at hcd
      exact h u cd hcd hproc

theorem processingOnlyFirst_runChunkOps (eh : Bool) (ops : List ChunkOp) :
    ProcessingOnlyFirst (runChunkOps eh ops) := by
  have hgen : ∀ (l : List ChunkOp) (m : ChunksMap), ProcessingOnlyFirst m →
      ProcessingOnlyFirst (l.foldl (applyChunkOp eh) m) := by
    intro l
    induction l with
    | nil => intro m hm; exact hm
    | cons hd tl ih =>
      intro m hm
      exact ih _ (processingOnlyFirst_applyChunkOp eh m hd hm)
  exact hgen ops [] (by intro u cd hcd; simp [mlookup] at hcd)

/-- C2 (amended): over every chunk-session table reachable from an empty table,
an arriving append for `uuid` is rejected with the serialization-conflict error
exactly when the session exists and its `processing` flag is set; and the flag
is only ever set while the session still counts zero completed chunks.  Hence
the rejection protects only the window from session creation until the
session's first chunk request completes; an append arriving while a second or
later chunk is being written is accepted, because nothing sets `processing`
back to `true`. -/
theorem chunk_append_serialization_guard (eh : Bool) (ops : List ChunkOp) (uuid : String) :
    (exceptIsOk (initChunks eh uuid (runChunkOps eh ops)) = false ↔
      ∃ cd, mlookup (runChunkOps eh ops) uuid = some cd ∧ cd.processing = true) ∧
    (∀ cd, mlookup (runChunkOps eh ops) uuid = some cd → cd.processing = true →
      cd.chunks = 0) := by
  constructor
  · unfold initChunks
    cases hm : mlookup (runChunkOps eh ops) uuid with
    | none => simp [exceptIsOk]
    | some cd =>
      by_cases hp : cd.processing <;> simp [hp, exceptIsOk]
  · intro cd hcd hp
    exact processingOnlyFirst_runChunkOps eh ops uuid cd hcd hp

/-- C2 counterexample: the concrete trace in which session `"u"` is created by
its first chunk, that chunk completes, and a second chunk has arrived and is
still being written (its completion has not happened yet).  The claim states an
append arriving now — while the session is in the Writing state for its second
chunk — must fail with the serialization-conflict error; the code accepts it.
For contrast, the same parallel append during the first chunk is rejected. -/
theorem chunk_parallel_append_second_chunk_accepted :
    exceptIsOk (initChunks true "u"
      (runChunkOps true [.arrive "u", .complete "u" 1048576, .arrive "u"])) = true ∧
    exceptIsOk (initChunks true "u" (runChunkOps true [.arrive "u"])) = false := by
  constructor <;> rfl

/-! ### Finalizing chunked uploads (`actuallyFinishChunks`) -/

/-- Error cases of `assertRetentionPeriod` (uploadController.js 216-236). -/
inductive RetErr
  | notEligible
  | badPeriod
  | permanentNotAllowed
deriving DecidableEq, Repr

def RetErr.message : RetErr → String
  | .notEligible => "You are not eligible for any file retention periods."
  | .badPeriod => "You are not eligible for the specified file retention period."
  | .permanentNotAllowed => "Permanent uploads are not permitted."

/-- The computed retention state (`utils.retentions`): whether the feature is
enabled, and per-group allowed periods and default period, in hours.  A `none`
default models JS `null`. -/
structure Retentions where
  enabled : Bool
  periods : List (String × List Rat)
  default : List (String × Option Rat)
deriving DecidableEq, Repr

/-- Translation of `self.assertRetentionPeriod` (uploadController.js 216-236).
`group` is the result of `user ? perms.group(user) : '_'`; group resolution
itself lives in the permission controller and is passed here resolved.  `age`
is `parseFloat` of the client value, `none` standing for `NaN`. -/
def assertRetentionPeriod (ret : Retentions) (group : Option String) (age : Option Rat) :
    Except RetErr (Option Rat) :=
  if ret.enabled = false then .ok none
  else
    match group with
    | none => .error .notEligible
    | some g =>
      match mlookup ret.periods g with
      | none => .error .notEligible
      | some ps =>
        let step : Except RetErr (Option Rat) :=
          match age with
          | none => .ok ((mlookup ret.default g).getD none)
          | some a =>
            if a < 0 then .ok ((mlookup ret.default g).getD none)
            else if a ∈ ps then .ok (some a) else .error .badPeriod
        match step with
        | .error e => .error e
        | .ok parsed =>
          if (parsed.getD 0 = 0) ∧ ¬ (0 : Rat) ∈ ps then .error .permanentNotAllowed
          else .ok parsed

/-- Configuration consumed by `self.isExtensionFiltered`. -/
structure ExtFilterCfg where
  filterNoExtension : Bool
  extensionsFilter : List String
  whitelistMode : Bool
deriving DecidableEq, Repr

/-- Translation of `self.isExtensionFiltered` (uploadController.js 125-137). -/
def isExtensionFiltered (cfg : ExtFilterCfg) (extname : String) : Bool :=
  if extname = "" ∧ cfg.filterNoExtension = true then true
  else if extname ≠ "" ∧ cfg.extensionsFilter ≠ [] then
    let matched := cfg.extensionsFilter.contains extname.toLower
    if (cfg.whitelistMode = false ∧ matched = true) ∨
       (cfg.whitelistMode = true ∧ matched = false) then true else false
  else false

/-- uploadController.js 47-48: hard-coded min chunk size of 1 MB, so the
maximum number of chunks equals the configured maximum upload size in MB. -/
def maxChunksCount (maxSize : Nat) : Nat := maxSize

/-- uploadController.js 36: `maxSizeBytes = maxSize * 1e6`. -/
def maxSizeBytes (maxSize : Nat) : Nat := maxSize * 1000000

/-- The errors thrown by the per-file body of `actuallyFinishChunks`, one
constructor per throw site, with their exact client-facing messages below. -/
inductive FinishErr
  | invalidUuid
  | stillProcessing
  | invalidChunksCount
  | extFiltered (extname : String)
  | retention (e : RetErr)
  | sizeMismatch (written reported : Nat)
  | emptyFile
  | tooLargeChunks (maxSize : Nat)
  | lstatMismatch (physical expected : Nat)
deriving DecidableEq, Repr

def FinishErr.message : FinishErr → String
  | .invalidUuid => "Invalid file UUID, or chunks data had already timed out. Try again?"
  | .stillProcessing => "Previous chunk upload is still being processed. Try again?"
  | .invalidChunksCount => "Invalid chunks count."
  | .extFiltered extname =>
    if extname = "" then "Files with no extension are not permitted."
    else (extname.drop 1).toUpper ++ " files are not permitted."
  | .retention e => e.message
  | .sizeMismatch written reported =>
    s!"Written bytes ({written}) does not match actual size reported by client ({reported})."
  | .emptyFile => "Empty files are not allowed."
  | .tooLargeChunks maxSize => s!"File too large. Chunks are bigger than {maxSize} MB."
  | .lstatMismatch physical expected =>
    s!"Resulting physical file size ({physical}) does not match expected size ({expected})."

/-- One entry of the `files` array of a `POST /api/upload/finishchunks` body. -/
structure FinishFileReq where
  uuid : Option String
  original : Option String
  filelength : Option Nat
  size : Option Nat
  age : Option Rat
  albumid : Option Int
  ftype : Option String
deriving DecidableEq, Repr

/-- The object pushed into `filesData` on success (uploadController.js 843-853). -/
structure FinishedFileData where
  filename : String
  originalname : String
  extname : String
  mimetype : String
  size : Nat
  albumid : Option Int
  age : Option Rat
deriving DecidableEq, Repr

/-- uploadController.js 795: `file.extname = typeof file.original === 'string'
? utils.extname(file.original) : ''`; `utils.extname` is passed in as a
collaborator function. -/
def finishExtname (extnameFn : String → String) (original : Option String) : String :=
  match original with
  | some o => extnameFn o
  | none => ""

/-- uploadController.js 802-807: adopt the written byte count when the client
reported no size, otherwise require byte-exact equality. -/
def finishSizeCheck (bytesWritten : Nat) (reported : Option Nat) : Except FinishErr Nat :=
  match reported with
  | none => .ok bytesWritten
  | some s => if s = bytesWritten then .ok s else .error (.sizeMismatch bytesWritten s)

/-- Static context of one finishchunks request: extension-filter config,
retention state, the empty-file filter, `maxSize` (MB), the `utils.extname`
collaborator and the requesting user's resolved permission group. -/
structure FinishChecksEnv where
  extFilter : ExtFilterCfg
  retentions : Retentions
  filterEmptyFile : Bool
  maxSize : Nat
  extnameFn : String → String
  group : Option String

/-- Translation of the per-file body of `actuallyFinishChunks`
(uploadController.js 771-853) up to pushing the finished file data.
`lstatSize` is the size `lstat` reports for the session's on-disk temp file
and `identifier` the name allocated by `getUniqueUploadIdentifier`; the
move/cleanup disk effects are modelled by `ChunkStore` below. -/
def actuallyFinishChunksChecks (env : FinishChecksEnv) (m : ChunksMap)
    (lstatSize : Nat) (identifier : String) (f : FinishFileReq) :
    Except FinishErr FinishedFileData :=
  match f.uuid with
  | none => .error .invalidUuid
  | some u =>
    if u = "" then .error .invalidUuid
    else
      match mlookup m u with
      | none => .error .invalidUuid
      | some cd =>
        if cd.processing = true then .error .stillProcessing
        else if cd.chunks < 2 ∨ cd.chunks > maxChunksCount env.maxSize then
          .error .invalidChunksCount
        else if isExtensionFiltered env.extFilter (finishExtname env.extnameFn f.original) = true
        then .error (.extFiltered (finishExtname env.extnameFn f.original))
        else
          match assertRetentionPeriod env.retentions env.group f.age with
          | .error e => .error (.retention e)
          | .ok age =>
            match finishSizeCheck cd.bytesWritten f.size with
            | .error e => .error e
            | .ok fsize =>
              if env.filterEmptyFile = true ∧ fsize = 0 then .error .emptyFile
              else if fsize > maxSizeBytes env.maxSize then .error (.tooLargeChunks env.maxSize)
              else if lstatSize ≠ fsize then .error (.lstatMismatch lstatSize fsize)
              else
                .ok { filename := identifier ++ finishExtname env.extnameFn f.original,
                      originalname := f.original.getD "",
                      extname := finishExtname env.extnameFn f.original,
                      mimetype := f.ftype.getD "",
                      size := fsize,
                      albumid := f.albumid,
                      age := age }

/-- C7: with a live, non-processing session for the request's uuid, finalizing
fails with the error whose message is "Invalid chunks count." exactly when the
session's accepted chunk count is below 2 (in particular exactly 1) or greater
than `maxChunksCount` (= configured `maxSize` in MB); counts within
`2 ≤ chunks ≤ maxChunksCount` pass this check, every later failure carrying a
different error. -/
theorem finishChunks_invalid_chunks_count_iff (env : FinishChecksEnv) (m : ChunksMap)
    (lstatSize : Nat) (identifier : String) (f : FinishFileReq) (u : String) (cd : ChunksData)
    (hu : f.uuid = some u) (hne : u ≠ "") (hcd : mlookup m u = some cd)
    (hproc : cd.processing = false) :
    (actuallyFinishChunksChecks env m lstatSize identifier f = .error .invalidChunksCount ↔
      (cd.chunks < 2 ∨ cd.chunks > maxChunksCount env.maxSize)) ∧
    FinishErr.message .invalidChunksCount = "Invalid chunks count." := by
  refine ⟨?_, rfl⟩
  unfold actuallyFinishChunksChecks
  rw [hu]
  simp only [if_neg hne, hcd, hproc]
  by_cases hcount : cd.chunks < 2 ∨ cd.chunks > maxChunksCount env.maxSize
  · simp [hcount]
  · rw [if_neg (by simp), if_neg hcount]
    simp only [hcount, iff_false]
    intro h
    by_cases hext :
        isExtensionFiltered env.extFilter (finishExtname env.extnameFn f.original) = true
    · rw [if_pos hext] at h
      simp at h
    · rw [if_neg hext] at h
      cases hret : assertRetentionPeriod env.retentions env.group f.age with
      | error e => simp [hret] at h
      | ok age =>
        simp only [hret] at h
        cases hsz : finishSizeCheck cd.bytesWritten f.size with
        | error e =>
          simp only [hsz] at h
          have he : e = FinishErr.invalidChunksCount := by simpa using h
          subst he
          unfold finishSizeCheck at hsz
          cases hrep : f.size with
          | none => simp [hrep] at hsz
          | some s =>
            simp only [hrep] at hsz
            by_cases hs : s = cd.bytesWritten
            · rw [if_pos hs] at hsz
              exact Except.noConfusion hsz
            · rw [if_neg hs] at hsz
              exact FinishErr.noConfusion (Except.error.inj hsz)
        | ok fsize =>
          simp only [hsz] at h
          by_cases h1 : env.filterEmptyFile = true ∧ fsize = 0
          · rw [if_pos h1] at h
            simp at h
          · rw [if_neg h1] at h
            by_cases h2 : fsize > maxSizeBytes env.maxSize
            · rw [if_pos h2] at h
              simp at h
            · rw [if_neg h2] at h
              by_cases h3 : lstatSize ≠ fsize
              · rw [if_pos h3] at h
                simp at h
              · rw [if_neg h3] at h
                exact Except.noConfusion h

/-- C7 witness: a concrete environment and a session holding exactly 1 chunk,
for which finalizing fails with the invalid-chunks-count error. -/
theorem finishChunks_invalid_chunks_count_witness :
    actuallyFinishChunksChecks
      { extFilter := { filterNoExtension := false, extensionsFilter := [], whitelistMode := false },
        retentions := { enabled := false, periods := [], default := [] },
        filterEmptyFile := false, maxSize := 50,
        extnameFn := fun _ => ".bin", group := some "_" }
      [("u", { chunks := 1, bytesWritten := 1048576, writeStreamLive := true,
               hashStreamLive := true, processing := false })]
      1048576 "abcd1234"
      { uuid := some "u", original := some "x.bin", filelength := none, size := none,
        age := none, albumid := none, ftype := none } = .error .invalidChunksCount :=
  ((finishChunks_invalid_chunks_count_iff
      { extFilter := { filterNoExtension := false, extensionsFilter := [], whitelistMode := false },
        retentions := { enabled := false, periods := [], default := [] },
        filterEmptyFile := false, maxSize := 50,
        extnameFn := fun _ => ".bin", group := some "_" }
      [("u", { chunks := 1, bytesWritten := 1048576, writeStreamLive := true,
               hashStreamLive := true, processing := false })]
      1048576 "abcd1234"
      { uuid := some "u", original := some "x.bin", filelength := none, size := none,
        age := none, albumid := none, ftype := none }
      "u"
      { chunks := 1, bytesWritten := 1048576, writeStreamLive := true,
        hashStreamLive := true, processing := false }
      rfl (by decide) rfl rfl).1).mpr (Or.inl (by decide))

/-! ### Chunk cleanup on finishchunks failure (`finishChunks` / `cleanUpChunks`) -/

/-- Streams, disk and table state of the chunked-upload subsystem: the session
table, the uuids whose `root/tmp` file and root directory still exist on disk,
and the log of destroyed write streams and disposed hashers. -/
structure ChunkStore where
  map : ChunksMap
  tmpOnDisk : List String
  dirOnDisk : List String
  destroyedWriters : List String
  disposedHashers : List String
deriving DecidableEq, Repr

/-- Translation of `cleanUpChunks` (uploadController.js 867-888): destroy the
write stream if not already destroyed, dispose the hasher if still live,
unlink `root/tmp`, remove the uuid directory, and delete the session entry.
Callers guard on `chunksData[uuid]` existing, so a missing entry is a no-op. -/
def cleanUpChunks (st : ChunkStore) (uuid : String) : ChunkStore :=
  match mlookup st.map uuid with
  | none => st
  | some cd =>
    { map := mremove st.map uuid
      tmpOnDisk := st.tmpOnDisk.filter (fun u => u ≠ uuid)
      dirOnDisk := st.dirOnDisk.filter (fun u => u ≠ uuid)
      destroyedWriters :=
        if cd.writeStreamLive = true then uuid :: st.destroyedWriters
        else st.destroyedWriters
      disposedHashers :=
        if cd.hashStreamLive = true then uuid :: st.disposedHashers
        else st.disposedHashers }

/-- One iteration of the `.catch` handler of `self.finishChunks`
(uploadController.js 757-766): `if (file.uuid && chunksData[file.uuid])
return self.cleanUpChunks(file.uuid)`. -/
def finishChunksCleanupStep (acc : ChunkStore) (f : FinishFileReq) : ChunkStore :=
  match f.uuid with
  | none => acc
  | some w =>
    if w = "" then acc
    else
      match mlookup acc.map w with
      | none => acc
      | some _ => cleanUpChunks acc w

/-- Translation of the whole `.catch` handler of `self.finishChunks`: every
file entry of the request is offered to `finishChunksCleanupStep`. -/
def finishChunksErrorCleanup (files : List FinishFileReq) (st : ChunkStore) : ChunkStore :=
  files.foldl finishChunksCleanupStep st

/-- A uuid has been fully cleaned up relative to its former session `cd`: the
entry is gone, its temp file and directory are off disk, and its live streams
were destroyed/disposed. -/
def CleanedUp (u : String) (cd : ChunksData) (st : ChunkStore) : Prop :=
  mlookup st.map u = none ∧ u ∉ st.tmpOnDisk ∧ u ∉ st.dirOnDisk ∧
  (cd.writeStreamLive = true → u ∈ st.destroyedWriters) ∧
  (cd.hashStreamLive = true → u ∈ st.disposedHashers)

theorem cleanUpChunks_cleans (st : ChunkStore) (u : String) (cd : ChunksData)
    (h : mlookup st.map u = some cd) : CleanedUp u cd (cleanUpChunks st u) := by
  unfold cleanUpChunks
  rw [h]
  dsimp only
  refine ⟨?_, ?_, ?_, ?_, ?_⟩
  · rw [mlookup_mremove, if_pos rfl]
  · intro hmem
    simp [List.mem_filter] at hmem
  · intro hmem
    simp [List.mem_filter] at hmem
  · intro hw
    rw [if_pos hw]
    exact List.mem_cons_self _ _
  · intro hh
    rw [if_pos hh]
    exact List.mem_cons_self _ _

theorem cleanUpChunks_preserves_cleaned (st : ChunkStore) (u w : String) (cd : ChunksData)
    (h : CleanedUp u cd st) : CleanedUp u cd (cleanUpChunks st w) := by
  obtain ⟨h1, h2, h3, h4, h5⟩ := h
  unfold cleanUpChunks
  cases hw : mlookup st.map w with
  | none => exact ⟨h1, h2, h3, h4, h5⟩
  | some cdw =>
    dsimp only
    refine ⟨?_, ?_, ?_, ?_, ?_⟩
    · rw [mlookup_mremove]
      by_cases huw : u = w
      · rw [if_pos huw]
      · rw [if_neg huw]
        exact h1
    · intro hmem
      exact h2 (List.mem_of_mem_filter hmem)
    · intro hmem
      exact h3 (List.mem_of_mem_filter hmem)
    · intro hwl
      by_cases hlive : cdw.writeStreamLive = true
      · rw [if_pos hlive]
        exact List.mem_cons_of_mem _ (h4 hwl)
      · rw [if_neg hlive]
        exact h4 hwl
    · intro hhl
      by_cases hlive : cdw.hashStreamLive = true
      · rw [if_pos hlive]
        exact List.mem_cons_of_mem _ (h5 hhl)
      · rw [if_neg hlive]
        exact h5 hhl

theorem cleanedUp_step (acc : ChunkStore) (f : FinishFileReq) (u : String) (cd : ChunksData)
    (h : CleanedUp u cd acc) : CleanedUp u cd (finishChunksCleanupStep acc f) := by
  unfold finishChunksCleanupStep
  cases f.uuid with
  | none => exact h
  | some w =>
    dsimp only
    by_cases hw : w = ""
    · rw [if_pos hw]
      exact h
    · rw [if_neg hw]
      cases hz : mlookup acc.map w with
      | none => exact h
      | some cdw => exact cleanUpChunks_preserves_cleaned acc u w cd h

theorem cleanedUp_foldl (fs : List FinishFileReq) (acc : ChunkStore) (u : String)
    (cd : ChunksData) (h : CleanedUp u cd acc) :
    CleanedUp u cd (fs.foldl finishChunksCleanupStep acc) := by
  induction fs generalizing acc with
  | nil => exact h
  | cons f fs ih => exact ih _ (cleanedUp_step acc f u cd h)

theorem live_or_cleaned_step (acc : ChunkStore) (f : FinishFileReq) (u : String)
    (cd : ChunksData) (h : mlookup acc.map u = some cd ∨ CleanedUp u cd acc) :
    mlookup (finishChunksCleanupStep acc f).map u = some cd ∨
      CleanedUp u cd (finishChunksCleanupStep acc f) := by
  cases h with
  | inr hcl => exact Or.inr (cleanedUp_step acc f u cd hcl)
  | inl hlive =>
    unfold finishChunksCleanupStep
    cases f.uuid with
    | none => exact Or.inl hlive
    | some w =>
      dsimp only
      by_cases hw : w = ""
      · rw [if_pos hw]
        exact Or.inl hlive
      · rw [if_neg hw]
        cases hz : mlookup acc.map w with
        | none => exact Or.inl hlive
        | some cdw =>
          by_cases huw : u = w
          · subst huw
            rw [hlive] at hz
            cases hz
            exact Or.inr (cleanUpChunks_cleans acc u cd hlive)
          · left
            unfold cleanUpChunks
            rw [hz]
            show mlookup (mremove acc.map w) u = some cd
            rw [mlookup_mremove, if_neg huw]
            exact hlive

/-- C10: if finalizing any file of a finishchunks request throws, the error
handler cleans up every uuid listed in the request that still has a live
session — including sessions whose own finalization did not fail: afterwards
that uuid's session entry is deleted, its temp file and chunk directory are
gone from disk, its write stream has been destroyed (when still live) and its
hasher disposed (when still live). -/
theorem finishChunks_error_cleans_all_live_sessions (files : List FinishFileReq)
    (st : ChunkStore) (u : String) (cd : ChunksData)
    (hin : ∃ f ∈ files, f.uuid = some u) (hne : u ≠ "")
    (hlive : mlookup st.map u = some cd) :
    CleanedUp u cd (finishChunksErrorCleanup files st) := by
  obtain ⟨f0, hf0, huuid⟩ := hin
  unfold finishChunksErrorCleanup
  have main : ∀ (fs : List FinishFileReq) (acc : ChunkStore),
      f0 ∈ fs → (mlookup acc.map u = some cd ∨ CleanedUp u cd acc) →
      CleanedUp u cd (fs.foldl finishChunksCleanupStep acc) := by
    intro fs
    induction fs with
    | nil => intro acc hmem; cases hmem
    | cons g gs ih =>
      intro acc hmem hdisj
      cases List.mem_cons.mp hmem with
      | inl hg =>
        subst hg
        have hstep : CleanedUp u cd (finishChunksCleanupStep acc f0) := by
          cases hdisj with
          | inr hcl => exact cleanedUp_step acc f0 u cd hcl
          | inl hlv =>
            unfold finishChunksCleanupStep
            rw [huuid]
            dsimp only
            rw [if_neg hne, hlv]
            exact cleanUpChunks_cleans acc u cd hlv
        exact cleanedUp_foldl gs _ u cd hstep
      | inr hgs =>
        exact ih _ hgs (live_or_cleaned_step acc g u cd hdisj)
  exact main files st hf0 (Or.inl hlive)

/-- C10 witness: a request listing two uuids of which only the second would
have failed; after the error handler runs, the first uuid's still-live session
is cleaned up as well. -/
theorem finishChunks_error_cleanup_witness :
    CleanedUp "a"
      { chunks := 2, bytesWritten := 2, writeStreamLive := true,
        hashStreamLive := true, processing := false }
      (finishChunksErrorCleanup
        [{ uuid := some "a", original := none, filelength := none, size := none,
           age := none, albumid := none, ftype := none },
         { uuid := some "b", original := none, filelength := none, size := none,
           age := none, albumid := none, ftype := none }]
        { map := [("a", { chunks := 2, bytesWritten := 2, writeStreamLive := true,
                          hashStreamLive := true, processing := false })],
          tmpOnDisk := ["a"], dirOnDisk := ["a"],
          destroyedWriters := [], disposedHashers := [] }) :=
  finishChunks_error_cleans_all_live_sessions _ _ "a"
    { chunks := 2, bytesWritten := 2, writeStreamLive := true,
      hashStreamLive := true, processing := false }
    ⟨{ uuid := some "a", original := none, filelength := none, size := none,
       age := none, albumid := none, ftype := none },
      List.mem_cons_self _ _, rfl⟩
    (by decide) rfl

/-! ### Per-file stream join in `actuallyUpload` (weighted resolve) -/

/-- uploadController.js 399: the weight at which the per-file promise resolves. -/
def REQUIRED_WEIGHT : Nat := 2

/-- uploadController.js 453-458: the writer's `finish` listener calls
`_resolve` with weight 1 when a passthrough scan stream is attached and with
weight 2 otherwise. -/
def writerFinishWeight (scanPresent : Bool) : Nat := if scanPresent then 1 else 2

/-- The events a per-file promise observes for a non-chunk field: the write
stream finishing, the scan stream emitting `scan-complete`, and a stream
error. -/
inductive UploadStreamEvent
  | writerFinish
  | scanComplete
  | streamError
deriving DecidableEq, Repr

/-- State captured by the promise closure of uploadController.js 368-474: the
accumulated `_weight`, the idempotent `file.error` flag and whether
`resolve()` has fired. -/
structure JoinState where
  weight : Nat
  errored : Bool
  resolved : Bool
deriving DecidableEq, Repr

def JoinState.initial : JoinState := { weight := 0, errored := false, resolved := false }

/-- Translation of the `_resolve`/`_reject` handlers (uploadController.js
381-412 and the listeners at 444-472): `_resolve` is a no-op once `file.error`
is set, otherwise adds its weight and resolves when the total reaches
`REQUIRED_WEIGHT`; `_reject` is idempotent; the `scan-complete` listener is
only wired when a scan stream is present. -/
def joinStep (scanPresent : Bool) (s : JoinState) : UploadStreamEvent → JoinState
  | .writerFinish =>
    if s.errored = true then s
    else
      { s with weight := s.weight + writerFinishWeight scanPresent,
               resolved := s.resolved ||
                 decide (s.weight + writerFinishWeight scanPresent ≥ REQUIRED_WEIGHT) }
  | .scanComplete =>
    if scanPresent = false then s
    else if s.errored = true then s
    else
      { s with weight := s.weight + 1,
               resolved := s.resolved || decide (s.weight + 1 ≥ REQUIRED_WEIGHT) }
  | .streamError =>
    if s.errored = true then s else { s with errored := true }

/-- The promise state after a sequence of stream events. -/
def joinRun (scanPresent : Bool) (events : List UploadStreamEvent) : JoinState :=
  events.foldl (joinStep scanPresent) JoinState.initial

theorem joinRun_scan_aux (es : List UploadStreamEvent) : ∀ (s : JoinState),
    UploadStreamEvent.streamError ∉ es → s.errored = false →
    (es.foldl (joinStep true) s).errored = false ∧
    (es.foldl (joinStep true) s).weight =
      s.weight + es.count .writerFinish + es.count .scanComplete ∧
    ((es.foldl (joinStep true) s).resolved = true ↔
      (s.resolved = true ∨ (es ≠ [] ∧
        s.weight + es.count .writerFinish + es.count .scanComplete ≥ 2))) := by
  induction es with
  | nil =>
    intro s he herr
    simp [herr]
  | cons e tl ih =>
    intro s he herr
    have he_tl : UploadStreamEvent.streamError ∉ tl :=
      fun hmem => he (List.mem_cons_of_mem _ hmem)
    have hfold : (e :: tl).foldl (joinStep true) s = tl.foldl (joinStep true) (joinStep true s e) :=
      rfl
    cases e with
    | streamError => exact absurd (List.mem_cons_self _ _) he
    | writerFinish =>
      have hstep : joinStep true s .writerFinish =
          { s with weight := s.weight + 1,
                   resolved := s.resolved || decide (s.weight + 1 ≥ 2) } := by
        simp [joinStep, herr, writerFinishWeight, REQUIRED_WEIGHT]
      obtain ⟨ih1, ih2, ih3⟩ := ih (joinStep true s .writerFinish) he_tl
        (by rw [hstep]; exact herr)
      rw [hfold]
      refine ⟨ih1, ?_, ?_⟩
      · rw [ih2, hstep]
        simp [List.count_cons]
        omega
      · rw [ih3, hstep]
        simp only [List.count_cons, List.count_cons_self]
        constructor
        · rintro (hres | ⟨hne, hge⟩)
          · simp only [Bool.or_eq_true, decide_eq_true_eq] at hres
            cases hres with
            | inl hr => exact Or.inl hr
            | inr hw => exact Or.inr ⟨by simp, by simp at hw ⊢; omega⟩
          · exact Or.inr ⟨by simp, by simp at hge ⊢; omega⟩
        · rintro (hres | ⟨hne, hge⟩)
          · exact Or.inl (by simp [hres])
          · by_cases htl : tl = []
            · subst htl
              simp at hge ⊢
              omega
            · exact Or.inr ⟨htl, by simp at hge ⊢; omega⟩
    | scanComplete =>
      have hstep : joinStep true s .scanComplete =
          { s with weight := s.weight + 1,
                   resolved := s.resolved || decide (s.weight + 1 ≥ 2) } := by
        simp [joinStep, herr, REQUIRED_WEIGHT]
      obtain ⟨ih1, ih2, ih3⟩ := ih (joinStep true s .scanComplete) he_tl
        (by rw [hstep]; exact herr)
      rw [hfold]
      refine ⟨ih1, ?_, ?_⟩
      · rw [ih2, hstep]
        simp [List.count_cons]
        omega
      · rw [ih3, hstep]
        simp only [List.count_cons, List.count_cons_self]
        constructor
        · rintro (hres | ⟨hne, hge⟩)
          · simp only [Bool.or_eq_true, decide_eq_true_eq] at hres
            cases hres with
            | inl hr => exact Or.inl hr
            | inr hw => exact Or.inr ⟨by simp, by simp at hw ⊢; omega⟩
          · exact Or.inr ⟨by simp, by simp at hge ⊢; omega⟩
        · rintro (hres | ⟨hne, hge⟩)
          · exact Or.inl (by simp [hres])
          · by_cases htl : tl = []
            · subst htl
              simp at hge ⊢
              omega
            · exact Or.inr ⟨htl, by simp at hge ⊢; omega⟩

theorem joinRun_noscan_aux (es : List UploadStreamEvent) : ∀ (s : JoinState),
    UploadStreamEvent.streamError ∉ es → s.errored = false →
    (es.foldl (joinStep false) s).errored = false ∧
    ((es.foldl (joinStep false) s).resolved = true ↔
      (s.resolved = true ∨ .writerFinish ∈ es)) := by
  induction es with
  | nil =>
    intro s he herr
    simp [herr]
  | cons e tl ih =>
    intro s he herr
    have he_tl : UploadStreamEvent.streamError ∉ tl :=
      fun hmem => he (List.mem_cons_of_mem _ hmem)
    have hfold : (e :: tl).foldl (joinStep false) s =
        tl.foldl (joinStep false) (joinStep false s e) := rfl
    cases e with
    | streamError => exact absurd (List.mem_cons_self _ _) he
    | writerFinish =>
      have hstep : joinStep false s .writerFinish =
          { s with weight := s.weight + 2, resolved := true } := by
        simp [joinStep, herr, writerFinishWeight, REQUIRED_WEIGHT]
      obtain ⟨ih1, ih3⟩ := ih (joinStep false s .writerFinish) he_tl
        (by rw [hstep]; exact herr)
      rw [hfold]
      refine ⟨ih1, ?_⟩
      rw [ih3, hstep]
      simp
    | scanComplete =>
      have hstep : joinStep false s .scanComplete = s := by
        simp [joinStep]
      obtain ⟨ih1, ih3⟩ := ih (joinStep false s .scanComplete) he_tl (by rw [hstep]; exact herr)
      rw [hfold]
      refine ⟨ih1, ?_⟩
      rw [ih3, hstep]
      simp [List.mem_cons]

/-- C5: for a non-chunk file field whose streams emit each terminal event at
most once (`finish` and `scan-complete` are `.once` listeners) and no error,
the per-file promise resolves exactly when both the write stream has finished
and the passthrough scanner, when present, has emitted its verdict.  With a
scanner the writer contributes one unit, the scanner one unit, and the engine
unblocks at `REQUIRED_WEIGHT = 2` accumulated units; without a scanner the
writer alone contributes the full two units. -/
theorem upload_weighted_join_resolution (es : List UploadStreamEvent)
    (hw : es.count .writerFinish ≤ 1) (hs : es.count .scanComplete ≤ 1)
    (he : UploadStreamEvent.streamError ∉ es) :
    ((joinRun true es).resolved = true ↔
      (UploadStreamEvent.writerFinish ∈ es ∧ UploadStreamEvent.scanComplete ∈ es)) ∧
    ((joinRun false es).resolved = true ↔ UploadStreamEvent.writerFinish ∈ es) ∧
    writerFinishWeight true = 1 ∧ REQUIRED_WEIGHT = 2 := by
  obtain ⟨-, -, h3⟩ := joinRun_scan_aux es JoinState.initial he rfl
  obtain ⟨-, h4⟩ := joinRun_noscan_aux es JoinState.initial he rfl
  refine ⟨?_, ?_, rfl, rfl⟩
  · rw [joinRun, h3]
    simp only [JoinState.initial]
    constructor
    · rintro (hres | ⟨hne, hge⟩)
      · simp at hres
      · have hwmem : es.count UploadStreamEvent.writerFinish = 1 := by omega
        have hsmem : es.count UploadStreamEvent.scanComplete = 1 := by omega
        constructor
        · exact List.count_pos_iff.mp (by omega)
        · exact List.count_pos_iff.mp (by omega)
    · rintro ⟨hwmem, hsmem⟩
      have hcw : 1 ≤ es.count UploadStreamEvent.writerFinish :=
        List.count_pos_iff.mpr hwmem
      have hcs : 1 ≤ es.count UploadStreamEvent.scanComplete :=
        List.count_pos_iff.mpr hsmem
      refine Or.inr ⟨?_, by omega⟩
      intro hnil
      subst hnil
      simp at hwmem
  · rw [joinRun, h4]
    simp only [JoinState.initial]
    constructor
    · rintro (hres | hmem)
      · simp at hres
      · exact hmem
    · intro hmem
      exact Or.inr hmem

/-- C5 witness: with a scanner present, the writer finishing and the scanner
verdict arriving — in either order — resolve the per-file promise. -/
theorem upload_weighted_join_resolution_witness :
    (joinRun true [.writerFinish, .scanComplete]).resolved = true :=
  (upload_weighted_join_resolution [.writerFinish, .scanComplete]
    (by decide) (by decide) (by decide)).1.mpr ⟨by decide, by decide⟩

/-! ### Filter quotas in `self.list` (uploadController.js 1203-1348) -/

/-- uploadController.js 1217: threshold for non-keyed (free-text) keywords. -/
def MAX_TEXT_QUERIES : Nat := 3

/-- uploadController.js 1320-1323: `textQueries` counts both the included and
the excluded non-keyed keywords of the parsed filter. -/
def textQueriesCount (text excludeText : List String) : Nat :=
  text.length + excludeText.length

/-- The quota message thrown at uploadController.js 1327, instantiated at
`MAX_TEXT_QUERIES = 3`. -/
def textQuotaMsg : String :=
  "Users are only allowed to use 3 non-keyed keywords at a time."

/-- Translation of the regular-user threshold check on free-text terms
(uploadController.js 1325-1328).  `text` and `excludeText` are the parsed
`queries.text` and `queries.exclude.text` arrays of the filter string. -/
def listTextQuotaCheck (ismoderator : Bool) (text excludeText : List String) :
    Except String Unit :=
  if ismoderator = false ∧ textQueriesCount text excludeText > MAX_TEXT_QUERIES then
    .error textQuotaMsg
  else .ok ()

/-- C8: a list request whose filter parses to more than `MAX_TEXT_QUERIES = 3`
free-text terms — included plus excluded — is rejected with the quota message
exactly then, when the caller is not a moderator; a moderator is never
rejected by this check. -/
theorem list_text_query_quota (text excludeText : List String) :
    (listTextQuotaCheck false text excludeText = .error textQuotaMsg ↔
      textQueriesCount text excludeText > MAX_TEXT_QUERIES) ∧
    listTextQuotaCheck true text excludeText = .ok () := by
  constructor
  · unfold listTextQuotaCheck
    by_cases h : textQueriesCount text excludeText > MAX_TEXT_QUERIES
    · simp [h]
    · simp [h]
  · unfold listTextQuotaCheck
    simp

/-! ### Album ZIP generation (albums controller, `generateZip`) -/

/-- JS truthiness of `parseInt(config.cloudflare.zipMaxTotalSize)`: `none`
models `NaN` (option unset), and `0` is falsy. -/
def natOptTruthy : Option Nat → Bool
  | none => false
  | some n => n ≠ 0

/-- Outcome classification of one fresh ZIP build. -/
inductive ZipBuildResult
  | served
  | errorNoFiles
  | errorSizeExceeds
  | errorArchive
deriving DecidableEq, Repr

/-- Observable post-state of one fresh build of `generateZip`: whether the
`zipEmitters` entry for the album identifier is still present, whether the
`done` event was emitted (which settles every concurrent waiter and, via the
`ZipEmitter` constructor's `once('done')` handler, deletes the entry), and
the build outcome. -/
structure ZipBuildOut where
  emitterRemains : Bool
  doneEmitted : Bool
  result : ZipBuildResult
deriving DecidableEq, Repr

/-- Translation of the build section of `generateZip` (albums controller
599-687) for an album whose archive is stale or missing and with no build
already in flight.  On entry a `ZipEmitter` is registered in `zipEmitters`.
The no-files and size-exceeded failures emit `done` before throwing, which
settles the waiters and clears the slot; a failure of the archive generation
itself (the try/catch around `generateNodeStream`) only logs and rethrows a
`ServerError`, emitting nothing, so the slot stays occupied and waiters stay
pending. -/
def generateZipBuild (fileSizes : List Nat) (zipMaxTotalSize : Option Nat)
    (archiveOk : Bool) : ZipBuildOut :=
  if fileSizes.length = 0 then
    { emitterRemains := false, doneEmitted := true, result := .errorNoFiles }
  else if natOptTruthy zipMaxTotalSize = true ∧
      fileSizes.sum > (zipMaxTotalSize.getD 0) * 1000000 then
    { emitterRemains := false, doneEmitted := true, result := .errorSizeExceeds }
  else if archiveOk = false then
    { emitterRemains := true, doneEmitted := false, result := .errorArchive }
  else
    { emitterRemains := false, doneEmitted := true, result := .served }

/-- C4 (code defect): when the archive generation itself fails, the catch
block rethrows without emitting `done`, so the `zipEmitters` slot for the
album is not cleared and concurrent waiters are never settled — contradicting
the claim that every failing build path clears the in-flight slot and
propagates the error to all waiters.  Concretely, for an album with one
5-byte file, no total-size cap and a failing archive stream the slot remains
and no `done` is emitted, while the no-files failure path does clear it. -/
theorem zip_archive_error_leaks_emitter :
    generateZipBuild [5] none false =
      { emitterRemains := true, doneEmitted := false, result := .errorArchive } ∧
    (generateZipBuild [] none false).emitterRemains = false ∧
    (generateZipBuild [] none false).doneEmitted = true := by
  exact ⟨rfl, rfl, rfl⟩

/-! ### Dedup/DB writer (`storeFilesToDb`) and the upload response

The `files` table columns follow the schema in the database initializer
(`initDatabase`); `size` is stored via `String(file.size)` in JS but compared
byte-exactly, so it is modelled as the number itself.  Ages and expiry dates
are fractional hours/seconds (`age * 3600`), modelled over `Rat`. -/

structure FileRow where
  id : Nat
  name : String
  original : String
  type : String
  size : Nat
  hash : Option String
  ip : Option String
  userid : Option Nat
  albumid : Option Nat
  timestamp : Nat
  expirydate : Option Rat
deriving DecidableEq, Repr

/-- The columns of the `albums` table that `storeFilesToDb` touches. -/
structure AlbumRow where
  id : Nat
  userid : Nat
  editedAt : Nat
deriving DecidableEq, Repr

/-- A staged upload as assembled by `actuallyUpload` / `actuallyUploadUrls` /
`actuallyFinishChunks` before `storeFilesToDb` runs. -/
structure StagedFile where
  filename : String
  originalname : String
  mimetype : String
  size : Nat
  hash : Option String
  albumid : Option Nat
  age : Option Rat
deriving DecidableEq, Repr

/-- An element of the array returned by `storeFilesToDb`: a freshly inserted
row or an existing duplicate (`{name, expirydate}` — `original` is added to
duplicates only on the /nojs route). -/
structure ResultFile where
  name : String
  expirydate : Option Rat
  original : Option String
deriving DecidableEq, Repr

/-- Request/config context of one `storeFilesToDb` call. -/
structure StoreCtx where
  enableHashing : Bool
  storeIP : Bool
  reqIp : String
  isNojs : Bool
  now : Nat
deriving DecidableEq, Repr

/-- JS truthiness of `file.age` (a number of hours): `0` is falsy. -/
def fileAgeTruthy : Option Rat → Bool
  | none => false
  | some a => a ≠ 0

/-- uploadController.js 1030-1046: the duplicate lookup scoped to the uploader
(`userid IS NULL` when anonymous), matching on hash and size, taking the first
row found. -/
def findDuplicate (db : List FileRow) (user : Option Nat) (hash : Option String)
    (size : Nat) : Option FileRow :=
  db.find? (fun r => decide (r.userid = user) && decide (r.hash = hash) &&
    decide (r.size = size))

/-- uploadController.js 1064-1086: the `data` object inserted for a new file;
`userid`/`albumid` are set only for authenticated uploads, `ip` only unless
disabled, `expirydate` only for a truthy retention age. -/
def mkFileRow (ctx : StoreCtx) (user : Option Nat) (id : Nat) (f : StagedFile) : FileRow :=
  { id := id
    name := f.filename
    original := f.originalname
    type := f.mimetype
    size := f.size
    hash := f.hash
    ip := if ctx.storeIP then some ctx.reqIp else none
    userid := user
    albumid := match user with | some _ => f.albumid | none => none
    timestamp := ctx.now
    expirydate :=
      if fileAgeTruthy f.age then some ((ctx.now : Rat) + (f.age.getD 0) * 3600) else none }

/-- The lookup phase of `storeFilesToDb` (the `Promise.all` over `filesData`):
every duplicate lookup runs against the pre-insert table; duplicates are
unlinked from disk and recorded as `{name, expirydate}` results, the rest are
kept for insertion.  Returns (files to insert, duplicate results, unlinked
staged filenames), each in arrival order. -/
def storeLookupPhase (ctx : StoreCtx) (user : Option Nat) (db : List FileRow)
    (filesData : List StagedFile) : List StagedFile × List ResultFile × List String :=
  filesData.foldl
    (fun acc f =>
      if ctx.enableHashing = true then
        match findDuplicate db user f.hash f.size with
        | some dbFile =>
          (acc.1,
           acc.2.1 ++ [{ name := dbFile.name, expirydate := dbFile.expirydate,
                         original := if ctx.isNojs then some f.originalname else none }],
           acc.2.2 ++ [f.filename])
        | none => (acc.1 ++ [f], acc.2.1, acc.2.2)
      else (acc.1 ++ [f], acc.2.1, acc.2.2))
    ([], [], [])

/-- First-occurrence deduplication (`!albumids.includes(...) && push`). -/
def dedupFirstNat : List Nat → List Nat
  | [] => []
  | x :: xs => x :: dedupFirstNat (xs.filter (fun y => y ≠ x))
termination_by l => l.length
decreasing_by
  simp only [List.length_cons]
  exact Nat.lt_succ_of_le (List.length_filter_le _ _)

/-- uploadController.js 1097-1103: the album ids the uploader owns, out of the
distinct ids attached to the new rows. -/
def authorizedAlbumIds (albums : List AlbumRow) (user : Option Nat)
    (albumids : List Nat) : List Nat :=
  match user with
  | none => []
  | some uid =>
    (albums.filter (fun a => decide (a.userid = uid) && decide (a.id ∈ albumids))).map
      (fun a => a.id)

/-- uploadController.js 1105-1111: `if (file.albumid !== null &&
!authorizedIds.includes(file.albumid)) file.albumid = null`. -/
def stripUnauthorizedAlbum (authorized : List Nat) (r : FileRow) : FileRow :=
  match r.albumid with
  | none => r
  | some aid => if aid ∈ authorized then r else { r with albumid := none }

/-- The state and return value of one `storeFilesToDb` call. -/
structure StoreResult where
  db : List FileRow
  albums : List AlbumRow
  result : List ResultFile
  unlinked : List String
deriving DecidableEq, Repr

/-- The `data` rows built for the files without duplicates, with ids from the
autoincrement counter. -/
def buildNewRows (ctx : StoreCtx) (user : Option Nat) : Nat → List StagedFile → List FileRow
  | _, [] => []
  | nextId, f :: rest => mkFileRow ctx user nextId f :: buildNewRows ctx user (nextId + 1) rest

/-- The insert phase of `storeFilesToDb` (uploadController.js 1096-1126):
when there are rows to insert, strip `albumid` on albums the uploader does not
own, insert the rows, and bump `editedAt` on the authorized albums. -/
def storeInsertPhase (ctx : StoreCtx) (user : Option Nat) (db : List FileRow)
    (albums : List AlbumRow) (rows : List FileRow) (exs : List ResultFile)
    (unl : List String) : StoreResult :=
  if rows.length = 0 then
    { db := db, albums := albums, result := exs, unlinked := unl }
  else
    let albumids := dedupFirstNat (rows.filterMap (fun r => r.albumid))
    let authorized : List Nat :=
      if albumids.length = 0 then [] else authorizedAlbumIds albums user albumids
    let rows2 := rows.map (stripUnauthorizedAlbum authorized)
    { db := db ++ rows2
      albums :=
        if authorized.length = 0 then albums
        else albums.map
          (fun a => if a.id ∈ authorized then { a with editedAt := ctx.now } else a)
      result :=
        rows2.map (fun r => { name := r.name, expirydate := r.expirydate,
                              original := some r.original }) ++ exs
      unlinked := unl }

/-- Translation of `self.storeFilesToDb` (uploadController.js 1024-1127):
look up duplicates against the pre-insert table, build `data` rows for the
rest, strip unauthorized `albumid`s, insert, and bump `editedAt` on the
authorized albums.  The returned array is `[...files, ...exists]`. -/
def storeFilesToDb (ctx : StoreCtx) (user : Option Nat) (nextId : Nat)
    (db : List FileRow) (albums : List AlbumRow) (filesData : List StagedFile) :
    StoreResult :=
  let phase := storeLookupPhase ctx user db filesData
  storeInsertPhase ctx user db albums (buildNewRows ctx user nextId phase.1)
    phase.2.1 phase.2.2

/-! ### The JSON response of `sendUploadResponse` -/

inductive JVal
  | jstr (s : String)
  | jnum (q : Rat)
  | jbool (b : Bool)
deriving DecidableEq, Repr

abbrev JObj := List (String × JVal)

def jlookup (o : JObj) (k : String) : Option JVal := mlookup o k

/-- Response-side context: `utils.conf.domain`, `utils.conf.homeDomain` and
whether the request came through the /nojs route. -/
structure RespCtx where
  domain : Option String
  homeDomain : String
  isNojs : Bool
deriving DecidableEq, Repr

/-- JS truthiness of `file.expirydate`. -/
def expirydateTruthy : Option Rat → Bool
  | none => false
  | some e => e ≠ 0

/-- Translation of the per-file map of `self.sendUploadResponse`
(uploadController.js 1131-1160): `name` and `url` always, `expirydate` for
temporary uploads, `original` on /nojs, `deleteUrl` for authenticated
uploads.  No other key is ever added. -/
def sendUploadResponseEntry (ctx : RespCtx) (user : Option Nat) (f : ResultFile) : JObj :=
  [("name", JVal.jstr f.name),
   ("url", JVal.jstr ((match ctx.domain with | some d => d ++ "/" | none => "") ++ f.name))]
  ++ (if expirydateTruthy f.expirydate = true
      then [("expirydate", JVal.jnum (f.expirydate.getD 0))] else [])
  ++ (if ctx.isNojs = true then [("original", JVal.jstr (f.original.getD ""))] else [])
  ++ (match user with
      | some _ => [("deleteUrl", JVal.jstr (ctx.homeDomain ++ "/file/" ++ f.name ++ "?delete"))]
      | none => [])

/-- The `files` array of the JSON response. -/
def sendUploadResponse (ctx : RespCtx) (user : Option Nat) (result : List ResultFile) :
    List JObj :=
  result.map (sendUploadResponseEntry ctx user)

theorem jlookup_response_entry_repeated (ctx : RespCtx) (user : Option Nat)
    (f : ResultFile) : jlookup (sendUploadResponseEntry ctx user f) "repeated" = none := by
  unfold sendUploadResponseEntry jlookup
  by_cases h1 : expirydateTruthy f.expirydate = true <;>
    by_cases h2 : ctx.isNojs = true <;>
      cases user <;>
        simp [h1, h2, mlookup]

theorem jlookup_response_entry_name (ctx : RespCtx) (user : Option Nat) (f : ResultFile) :
    jlookup (sendUploadResponseEntry ctx user f) "name" = some (JVal.jstr f.name) := by
  unfold sendUploadResponseEntry jlookup
  simp [mlookup]

theorem stripUnauthorizedAlbum_fields (authorized : List Nat) (r : FileRow) :
    (stripUnauthorizedAlbum authorized r).name = r.name ∧
    (stripUnauthorizedAlbum authorized r).original = r.original ∧
    (stripUnauthorizedAlbum authorized r).hash = r.hash ∧
    (stripUnauthorizedAlbum authorized r).size = r.size ∧
    (stripUnauthorizedAlbum authorized r).userid = r.userid ∧
    (stripUnauthorizedAlbum authorized r).expirydate = r.expirydate := by
  unfold stripUnauthorizedAlbum
  cases r.albumid with
  | none => exact ⟨rfl, rfl, rfl, rfl, rfl, rfl⟩
  | some aid =>
    dsimp only
    by_cases h : aid ∈ authorized
    · simp [h]
    · simp [h]

theorem storeInsertPhase_single (ctx : StoreCtx) (user : Option Nat) (db : List FileRow)
    (albums : List AlbumRow) (row : FileRow) (exs : List ResultFile) (unl : List String) :
    ∃ row2, (storeInsertPhase ctx user db albums [row] exs unl).db = db ++ [row2] ∧
      (storeInsertPhase ctx user db albums [row] exs unl).result =
        { name := row2.name, expirydate := row2.expirydate,
          original := some row2.original } :: exs ∧
      (storeInsertPhase ctx user db albums [row] exs unl).unlinked = unl ∧
      row2.name = row.name ∧ row2.original = row.original ∧ row2.hash = row.hash ∧
      row2.size = row.size ∧ row2.userid = row.userid := by
  exact ⟨_, rfl, rfl, rfl,
    (stripUnauthorizedAlbum_fields _ _).1,
    (stripUnauthorizedAlbum_fields _ _).2.1,
    (stripUnauthorizedAlbum_fields _ _).2.2.1,
    (stripUnauthorizedAlbum_fields _ _).2.2.2.1,
    (stripUnauthorizedAlbum_fields _ _).2.2.2.2.1⟩

theorem storeFilesToDb_single_new (ctx : StoreCtx) (user : Option Nat) (nextId : Nat)
    (db : List FileRow) (albums : List AlbumRow) (f : StagedFile)
    (hhash : ctx.enableHashing = true)
    (hno : findDuplicate db user f.hash f.size = none) :
    ∃ row, (storeFilesToDb ctx user nextId db albums [f]).db = db ++ [row] ∧
      row.name = f.filename ∧ row.hash = f.hash ∧ row.size = f.size ∧
      row.userid = user ∧
      (storeFilesToDb ctx user nextId db albums [f]).result =
        [{ name := f.filename, expirydate := row.expirydate,
           original := some f.originalname }] := by
  have hphase : storeLookupPhase ctx user db [f] = ([f], [], []) := by
    simp [storeLookupPhase, hhash, hno]
  have hmain : storeFilesToDb ctx user nextId db albums [f] =
      storeInsertPhase ctx user db albums [mkFileRow ctx user nextId f] [] [] := by
    unfold storeFilesToDb
    rw [hphase]
    rfl
  obtain ⟨row2, h1, h2, h3, hname, horig, hhash2, hsize2, huid⟩ :=
    storeInsertPhase_single ctx user db albums (mkFileRow ctx user nextId f) [] []
  refine ⟨row2, by rw [hmain, h1], ?_, ?_, ?_, ?_, ?_⟩
  · rw [hname]; rfl
  · rw [hhash2]; rfl
  · rw [hsize2]; rfl
  · rw [huid]; rfl
  · rw [hmain, h2, hname, horig]
    rfl

theorem storeFilesToDb_single_dup (ctx : StoreCtx) (user : Option Nat) (nextId : Nat)
    (db : List FileRow) (albums : List AlbumRow) (g : StagedFile) (r : FileRow)
    (hhash : ctx.enableHashing = true)
    (hdup : findDuplicate db user g.hash g.size = some r) :
    storeFilesToDb ctx user nextId db albums [g] =
      { db := db, albums := albums,
        result := [{ name := r.name, expirydate := r.expirydate,
                     original := if ctx.isNojs then some g.originalname else none }],
        unlinked := [g.filename] } := by
  have hphase : storeLookupPhase ctx user db [g] =
      ([], [{ name := r.name, expirydate := r.expirydate,
              original := if ctx.isNojs then some g.originalname else none }],
       [g.filename]) := by
    simp [storeLookupPhase, hhash, hdup]
  unfold storeFilesToDb
  rw [hphase]
  rfl

theorem findDuplicate_append_new (db : List FileRow) (user : Option Nat)
    (hash : Option String) (size : Nat) (row : FileRow)
    (hno : findDuplicate db user hash size = none)
    (hu : row.userid = user) (hh : row.hash = hash) (hs : row.size = size) :
    findDuplicate (db ++ [row]) user hash size = some row := by
  unfold findDuplicate at hno ⊢
  rw [List.find?_append, hno]
  simp [List.find?, hu, hh, hs]

/-- C1 (amended): with hashing enabled, after a first upload of a file with no
pre-existing duplicate, a second upload by the same owner (same `userid`, or
both anonymous) with the same hash and size inserts no new row — the files
table is unchanged — and its single result entry references the first upload's
name.  However the response entry carries no `repeated` key at all (this fork
never sets one), so it is in particular not marked `repeated=true`. -/
theorem upload_duplicate_detection (ctx : StoreCtx) (rctx : RespCtx) (user : Option Nat)
    (nextId nextId2 : Nat) (db : List FileRow) (albums : List AlbumRow) (f g : StagedFile)
    (hhash : ctx.enableHashing = true)
    (hno : findDuplicate db user f.hash f.size = none)
    (hh : g.hash = f.hash) (hs : g.size = f.size) :
    (storeFilesToDb ctx user nextId2
        (storeFilesToDb ctx user nextId db albums [f]).db
        (storeFilesToDb ctx user nextId db albums [f]).albums [g]).db =
      (storeFilesToDb ctx user nextId db albums [f]).db ∧
    ∃ e, (storeFilesToDb ctx user nextId2
        (storeFilesToDb ctx user nextId db albums [f]).db
        (storeFilesToDb ctx user nextId db albums [f]).albums [g]).result = [e] ∧
      e.name = f.filename ∧
      jlookup (sendUploadResponseEntry rctx user e) "name" =
        some (JVal.jstr f.filename) ∧
      jlookup (sendUploadResponseEntry rctx user e) "repeated" = none := by
  obtain ⟨row, hdb1, hname, hhash1, hsize1, huid, hres1⟩ :=
    storeFilesToDb_single_new ctx user nextId db albums f hhash hno
  have hfind : findDuplicate (storeFilesToDb ctx user nextId db albums [f]).db
      user g.hash g.size = some row := by
    rw [hdb1, hh, hs]
    exact findDuplicate_append_new db user f.hash f.size row hno huid hhash1 hsize1
  have h2 := storeFilesToDb_single_dup ctx user nextId2
    (storeFilesToDb ctx user nextId db albums [f]).db
    (storeFilesToDb ctx user nextId db albums [f]).albums g row hhash hfind
  rw [h2]
  refine ⟨rfl, ⟨{ name := row.name, expirydate := row.expirydate,
                  original := (if ctx.isNojs then some g.originalname else none) },
    rfl, hname, ?_, ?_⟩⟩
  · rw [jlookup_response_entry_name]
    simp [hname]
  · exact jlookup_response_entry_repeated _ _ _

/-- C1 witness: the amended duplicate-upload behavior at a concrete pair of
uploads with equal bytes (hash "deadbeef", 5 bytes) by user 1. -/
theorem upload_duplicate_detection_witness :
    (storeFilesToDb
        { enableHashing := true, storeIP := true, reqIp := "127.0.0.1",
          isNojs := false, now := 1000 } (some 1) 2
        (storeFilesToDb
          { enableHashing := true, storeIP := true, reqIp := "127.0.0.1",
            isNojs := false, now := 1000 } (some 1) 1 [] []
          [{ filename := "abcd1234.bin", originalname := "hello.bin",
             mimetype := "application/octet-stream", size := 5,
             hash := some "deadbeef", albumid := none, age := none }]).db
        (storeFilesToDb
          { enableHashing := true, storeIP := true, reqIp := "127.0.0.1",
            isNojs := false, now := 1000 } (some 1) 1 [] []
          [{ filename := "abcd1234.bin", originalname := "hello.bin",
             mimetype := "application/octet-stream", size := 5,
             hash := some "deadbeef", albumid := none, age := none }]).albums
        [{ filename := "zzzz9999.bin", originalname := "hello.bin",
           mimetype := "application/octet-stream", size := 5,
           hash := some "deadbeef", albumid := none, age := none }]).db =
      (storeFilesToDb
        { enableHashing := true, storeIP := true, reqIp := "127.0.0.1",
          isNojs := false, now := 1000 } (some 1) 1 [] []
        [{ filename := "abcd1234.bin", originalname := "hello.bin",
           mimetype := "application/octet-stream", size := 5,
           hash := some "deadbeef", albumid := none, age := none }]).db ∧
    ∃ e, (storeFilesToDb
        { enableHashing := true, storeIP := true, reqIp := "127.0.0.1",
          isNojs := false, now := 1000 } (some 1) 2
        (storeFilesToDb
          { enableHashing := true, storeIP := true, reqIp := "127.0.0.1",
            isNojs := false, now := 1000 } (some 1) 1 [] []
          [{ filename := "abcd1234.bin", originalname := "hello.bin",
             mimetype := "application/octet-stream", size := 5,
             hash := some "deadbeef", albumid := none, age := none }]).db
        (storeFilesToDb
          { enableHashing := true, storeIP := true, reqIp := "127.0.0.1",
            isNojs := false, now := 1000 } (some 1) 1 [] []
          [{ filename := "abcd1234.bin", originalname := "hello.bin",
             mimetype := "application/octet-stream", size := 5,
             hash := some "deadbeef", albumid := none, age := none }]).albums
        [{ filename := "zzzz9999.bin", originalname := "hello.bin",
           mimetype := "application/octet-stream", size := 5,
           hash := some "deadbeef", albumid := none, age := none }]).result = [e] ∧
      e.name = "abcd1234.bin" ∧
      jlookup (sendUploadResponseEntry
        { domain := some "https://safe.test", homeDomain := "https://safe.test",
          isNojs := false } (some 1) e) "name" = some (JVal.jstr "abcd1234.bin") ∧
      jlookup (sendUploadResponseEntry
        { domain := some "https://safe.test", homeDomain := "https://safe.test",
          isNojs := false } (some 1) e) "repeated" = none :=
  upload_duplicate_detection
    { enableHashing := true, storeIP := true, reqIp := "127.0.0.1",
      isNojs := false, now := 1000 }
    { domain := some "https://safe.test", homeDomain := "https://safe.test",
      isNojs := false }
    (some 1) 1 2 [] []
    { filename := "abcd1234.bin", originalname := "hello.bin",
      mimetype := "application/octet-stream", size := 5,
      hash := some "deadbeef", albumid := none, age := none }
    { filename := "zzzz9999.bin", originalname := "hello.bin",
      mimetype := "application/octet-stream", size := 5,
      hash := some "deadbeef", albumid := none, age := none }
    rfl rfl rfl rfl

/-- C1 counterexample: a concrete replayed upload.  The second call inserts no
row and its entry references the first upload's name, but the response object
has no `repeated` key, refuting the claim that the duplicate is marked
`repeated=true`. -/
theorem upload_duplicate_response_not_marked_repeated :
    ((storeFilesToDb
        { enableHashing := true, storeIP := true, reqIp := "127.0.0.1",
          isNojs := false, now := 1000 } (some 1) 2
        (storeFilesToDb
          { enableHashing := true, storeIP := true, reqIp := "127.0.0.1",
            isNojs := false, now := 1000 } (some 1) 1 [] []
          [{ filename := "abcd1234.bin", originalname := "hello.bin",
             mimetype := "application/octet-stream", size := 5,
             hash := some "deadbeef", albumid := none, age := none }]).db
        (storeFilesToDb
          { enableHashing := true, storeIP := true, reqIp := "127.0.0.1",
            isNojs := false, now := 1000 } (some 1) 1 [] []
          [{ filename := "abcd1234.bin", originalname := "hello.bin",
             mimetype := "application/octet-stream", size := 5,
             hash := some "deadbeef", albumid := none, age := none }]).albums
        [{ filename := "zzzz9999.bin", originalname := "hello.bin",
           mimetype := "application/octet-stream", size := 5,
           hash := some "deadbeef", albumid := none, age := none }]).result.map
       (fun e => (e.name,
         jlookup (sendUploadResponseEntry
           { domain := some "https://safe.test", homeDomain := "https://safe.test",
             isNojs := false } (some 1) e) "repeated"))) =
      [("abcd1234.bin", none)] := by
  decide

/-! ### Bulk deletion (`bulkDeleteFromDb` in the utils controller)

The filesystem is the uploads directory plus the thumbs directory; which
unlink calls fail with a filesystem error is environment input
(`unlinkFails`).  `utils.extname` is again passed as a collaborator. -/

/-- Constants.js: extensions whose uploads get thumbnails. -/
def IMAGE_EXTS : List String :=
  [".gif", ".jpeg", ".jpg", ".png", ".svg", ".tif", ".tiff", ".webp"]

def VIDEO_EXTS : List String :=
  [".3g2", ".3gp", ".asf", ".avchd", ".avi", ".divx", ".evo", ".flv", ".h264",
   ".h265", ".hevc", ".m2p", ".m2ts", ".m4v", ".mk3d", ".mkv", ".mov", ".mp4",
   ".mpeg", ".mpg", ".mxf", ".ogg", ".ogv", ".ps", ".qt", ".rmvb", ".ts",
   ".vob", ".webm", ".wmv"]

/-- On-disk state seen by `unlinkFile` and `bulkDeleteFromDb`. -/
structure SafeFs where
  uploads : List String
  thumbs : List String
deriving DecidableEq, Repr

/-- Translation of `self.unlinkFile` (utils controller): remove the upload and,
for image/video extensions, its `<identifier>.png` thumbnail. -/
def unlinkFile (extnameFn : String → String) (fs : SafeFs) (filename : String) : SafeFs :=
  let identifier := (filename.splitOn ".").headD ""
  let extname := extnameFn filename
  { uploads := fs.uploads.filter (fun n => n ≠ filename)
    thumbs :=
      if extname ∈ IMAGE_EXTS ∨ extname ∈ VIDEO_EXTS then
        fs.thumbs.filter (fun n => n ≠ identifier ++ ".png")
      else fs.thumbs }

/-- A value of the bulk-delete request: an id (field "id") or a name
(field "name"). -/
inductive FieldVal
  | vid (n : Nat)
  | vname (s : String)
deriving DecidableEq, Repr

/-- The projection `file[field]` for the two recognized fields. -/
def rowFieldVal (field : String) (r : FileRow) : FieldVal :=
  if field = "id" then .vid r.id else .vname r.name

/-- SQLITE_LIMIT_VARIABLE_NUMBER (utils controller). -/
def MAX_VARIABLES_CHUNK_SIZE : Nat := 999

/-- The `while (values.length) chunks.push(values.splice(0, 999))` loop. -/
def chunksOf999 {α : Type} : List α → List (List α)
  | [] => []
  | x :: xs =>
    (x :: xs).take MAX_VARIABLES_CHUNK_SIZE ::
      chunksOf999 ((x :: xs).drop MAX_VARIABLES_CHUNK_SIZE)
termination_by l => l.length
decreasing_by
  simp [MAX_VARIABLES_CHUNK_SIZE]
  omega

/-- Accumulator threaded through the per-chunk processing. -/
structure ChunkAcc where
  failed : List FieldVal
  db : List FileRow
  fs : SafeFs
  unlinkeds : List FileRow
  albumids : List Nat
deriving DecidableEq, Repr

/-- utils controller: `if (file.albumid && !albumids.includes(file.albumid))
albumids.push(file.albumid)` over the unlinked rows. -/
def pushAlbumIds (albumids : List Nat) (files : List FileRow) : List Nat :=
  files.foldl
    (fun acc f =>
      match f.albumid with
      | some a => if a ≠ 0 ∧ a ∉ acc then acc ++ [a] else acc
      | none => acc)
    albumids

/-- Translation of the per-chunk body of `bulkDeleteFromDb`: select the rows
matching the chunk (scoped to the caller unless moderator), mark values
without a row as failed, unlink each found row (a filesystem error sends the
value to `failed` instead), delete the successfully unlinked rows by primary
key, and collect them. -/
def bulkDeleteChunk (field : String) (uid : Nat) (ismoderator : Bool)
    (unlinkFails : String → Bool) (extnameFn : String → String)
    (acc : ChunkAcc) (chunk : List FieldVal) : ChunkAcc :=
  let files := acc.db.filter
    (fun r => decide (rowFieldVal field r ∈ chunk) &&
      (ismoderator || decide (r.userid = some uid)))
  let notFound := chunk.filter
    (fun v => !(files.any (fun f => decide (rowFieldVal field f = v))))
  let unlinked := files.filter (fun f => !(unlinkFails f.name))
  let failedUnlink := (files.filter (fun f => unlinkFails f.name)).map (rowFieldVal field)
  let fs2 := unlinked.foldl (fun fsacc f => unlinkFile extnameFn fsacc f.name) acc.fs
  if unlinked.length = 0 then
    { acc with failed := acc.failed ++ notFound ++ failedUnlink, fs := fs2 }
  else
    { failed := acc.failed ++ notFound ++ failedUnlink
      db := acc.db.filter (fun r => !(unlinked.any (fun f => decide (f.id = r.id))))
      fs := fs2
      unlinkeds := acc.unlinkeds ++ unlinked
      albumids := pushAlbumIds acc.albumids unlinked }

/-- Outcome of one `bulkDeleteFromDb` call. -/
structure BulkDeleteResult where
  failed : List FieldVal
  db : List FileRow
  albums : List AlbumRow
  fs : SafeFs
  unlinkeds : List FileRow
deriving DecidableEq, Repr

/-- Translation of `self.bulkDeleteFromDb` (utils controller): return an empty
`failed` array doing nothing when the user is falsy, the field unrecognized or
the values array empty; otherwise shard the values into chunks of at most
`MAX_VARIABLES_CHUNK_SIZE`, process each chunk, then bump `editedAt` on the
touched albums (the Cloudflare purge is fire-and-forget and carries no state
modelled here). -/
def bulkDeleteFromDb (field : String) (values : List FieldVal) (user : Option Nat)
    (ismoderator : Bool) (unlinkFails : String → Bool) (extnameFn : String → String)
    (db : List FileRow) (albums : List AlbumRow) (fs : SafeFs) (now : Nat) :
    BulkDeleteResult :=
  if user = none ∨ ¬ (field = "id" ∨ field = "name") ∨ values = [] then
    { failed := [], db := db, albums := albums, fs := fs, unlinkeds := [] }
  else
    let uid := user.getD 0
    let final := (chunksOf999 values).foldl
      (bulkDeleteChunk field uid ismoderator unlinkFails extnameFn)
      { failed := [], db := db, fs := fs, unlinkeds := [], albumids := [] }
    { failed := final.failed
      db := final.db
      albums :=
        if final.unlinkeds.length ≠ 0 ∧ final.albumids.length ≠ 0 then
          albums.map
            (fun a => if a.id ∈ final.albumids then { a with editedAt := now } else a)
        else albums
      fs := final.fs
      unlinkeds := final.unlinkeds }

/-- The JSON body of `POST /api/upload/bulkdelete`. -/
structure BulkDeleteBody where
  field : Option String
  values : Option (List FieldVal)
deriving DecidableEq, Repr

/-- Translation of `self.bulkDelete` (uploadController.js 1182-1199): the
field falls back to "id" when falsy — missing or the empty string, per
`req.body.field || 'id'` — a missing or empty values array is rejected, and
the response is `{success: true, failed}`. -/
def bulkDelete (body : BulkDeleteBody) (uid : Nat) (ismoderator : Bool)
    (unlinkFails : String → Bool) (extnameFn : String → String)
    (db : List FileRow) (albums : List AlbumRow) (fs : SafeFs) (now : Nat) :
    Except String ((Bool × List FieldVal) × BulkDeleteResult) :=
  let field := match body.field with
    | none => "id"
    | some s => if s = "" then "id" else s
  match body.values with
  | none => .error "No array of files specified."
  | some values =>
    if values.length = 0 then .error "No array of files specified."
    else
      let out := bulkDeleteFromDb field values (some uid) ismoderator unlinkFails
        extnameFn db albums fs now
      .ok ((true, out.failed), out)

theorem chunksOf999_length_le {α : Type} (l : List α) :
    ∀ c ∈ chunksOf999 l, c.length ≤ MAX_VARIABLES_CHUNK_SIZE := by
  induction l using chunksOf999.induct with
  | case1 =>
    intro c hc
    simp [chunksOf999] at hc
  | case2 x xs ih =>
    intro c hc
    rw [chunksOf999] at hc
    rcases List.mem_cons.mp hc with h | h
    · subst h
      exact List.length_take_le _ _
    · exact ih c h

theorem chunksOf999_flatten {α : Type} (l : List α) : (chunksOf999 l).flatten = l := by
  induction l using chunksOf999.induct with
  | case1 =>
    rw [chunksOf999]
    rfl
  | case2 x xs ih =>
    rw [chunksOf999]
    simp only [List.flatten_cons, ih]
    exact List.take_append_drop _ _

theorem unlinkFoldl_uploads_subset (extnameFn : String → String) (l : List FileRow)
    (fs : SafeFs) (n : String) :
    n ∈ (l.foldl (fun a f => unlinkFile extnameFn a f.name) fs).uploads → n ∈ fs.uploads := by
  induction l generalizing fs with
  | nil => exact fun h => h
  | cons g gs ih =>
    intro h
    have h2 := ih (unlinkFile extnameFn fs g.name) h
    exact List.mem_of_mem_filter h2

theorem unlinkFoldl_removes (extnameFn : String → String) (l : List FileRow) (fs : SafeFs) :
    ∀ f ∈ l, f.name ∉ (l.foldl (fun a f => unlinkFile extnameFn a f.name) fs).uploads := by
  induction l generalizing fs with
  | nil => intro f hf; cases hf
  | cons g gs ih =>
    intro f hf hmem
    rcases List.mem_cons.mp hf with h | h
    · subst h
      have h2 := unlinkFoldl_uploads_subset extnameFn gs (unlinkFile extnameFn fs f.name)
        f.name hmem
      simp [unlinkFile, List.mem_filter] at h2
    · exact ih _ f h hmem

/-- The invariant carried through the chunk fold of `bulkDeleteFromDb`:
processed values are partitioned into failures and deleted values, failures
come from processed values, deleted rows carry processed values, and deleted
rows are gone from the table and the uploads directory. -/
def BulkInv (field : String) (processed : List FieldVal) (acc : ChunkAcc) : Prop :=
  (∀ v ∈ processed, v ∈ acc.failed ∨ v ∈ acc.unlinkeds.map (rowFieldVal field)) ∧
  (∀ v ∈ acc.failed, v ∈ processed) ∧
  (∀ r ∈ acc.unlinkeds, rowFieldVal field r ∈ processed) ∧
  (∀ r ∈ acc.unlinkeds, r ∉ acc.db) ∧
  (∀ r ∈ acc.unlinkeds, r.name ∉ acc.fs.uploads)

theorem bulkInv_step (field : String) (uid : Nat) (ismoderator : Bool)
    (unlinkFails : String → Bool) (extnameFn : String → String)
    (processed : List FieldVal) (acc : ChunkAcc) (chunk : List FieldVal)
    (h : BulkInv field processed acc) :
    BulkInv field (processed ++ chunk)
      (bulkDeleteChunk field uid ismoderator unlinkFails extnameFn acc chunk) := by
  obtain ⟨h1, h2, h3, h4, h5⟩ := h
  unfold bulkDeleteChunk
  have hfiles_chunk : ∀ f ∈ acc.db.filter
      (fun r => decide (rowFieldVal field r ∈ chunk) &&
        (ismoderator || decide (r.userid = some uid))),
      rowFieldVal field f ∈ chunk := by
    intro f hf
    have hp := (List.mem_filter.mp hf).2
    simp only [Bool.and_eq_true, decide_eq_true_eq] at hp
    exact hp.1
  have hfiles_db : ∀ f ∈ acc.db.filter
      (fun r => decide (rowFieldVal field r ∈ chunk) &&
        (ismoderator || decide (r.userid = some uid))), f ∈ acc.db := by
    intro f hf
    exact List.mem_of_mem_filter hf
  set files := acc.db.filter
    (fun r => decide (rowFieldVal field r ∈ chunk) &&
      (ismoderator || decide (r.userid = some uid))) with hfiles
  set notFound := chunk.filter
    (fun v => !(files.any (fun f => decide (rowFieldVal field f = v)))) with hnf
  set unlinked := files.filter (fun f => !(unlinkFails f.name)) with hul
  set failedUnlink := (files.filter (fun f => unlinkFails f.name)).map (rowFieldVal field)
    with hfu
  have hcover : ∀ v ∈ chunk, v ∈ notFound ∨ v ∈ failedUnlink ∨
      v ∈ unlinked.map (rowFieldVal field) := by
    intro v hv
    by_cases hany : files.any (fun f => decide (rowFieldVal field f = v)) = true
    · obtain ⟨f, hfmem, hfv⟩ := List.any_eq_true.mp hany
      have hfv2 : rowFieldVal field f = v := of_decide_eq_true hfv
      by_cases hfail : unlinkFails f.name = true
      · refine Or.inr (Or.inl ?_)
        rw [hfu]
        exact List.mem_map.mpr ⟨f, List.mem_filter.mpr ⟨hfmem, hfail⟩, hfv2⟩
      · refine Or.inr (Or.inr ?_)
        exact List.mem_map.mpr
          ⟨f, List.mem_filter.mpr ⟨hfmem, by simp [hfail]⟩, hfv2⟩
    · left
      rw [hnf]
      exact List.mem_filter.mpr ⟨hv, by simp [hany]⟩
  have hnf_sub : ∀ v ∈ notFound, v ∈ chunk := by
    intro v hv
    exact List.mem_of_mem_filter hv
  have hfu_sub : ∀ v ∈ failedUnlink, v ∈ chunk := by
    intro v hv
    rw [hfu] at hv
    obtain ⟨f, hfmem, hfv⟩ := List.mem_map.mp hv
    exact hfv ▸ hfiles_chunk f (List.mem_of_mem_filter hfmem)
  have hul_chunk : ∀ f ∈ unlinked, rowFieldVal field f ∈ chunk := by
    intro f hf
    exact hfiles_chunk f (List.mem_of_mem_filter hf)
  by_cases hz : unlinked.length = 0
  · rw [if_pos hz]
    have hulnil : unlinked = [] := List.length_eq_zero.mp hz
    refine ⟨?_, ?_, ?_, ?_, ?_⟩
    · intro v hv
      rcases List.mem_append.mp hv with hvp | hvc
      · rcases h1 v hvp with hf | hu
        · exact Or.inl (by simp [hf])
        · exact Or.inr hu
      · rcases hcover v hvc with hn | hfu2 | hu
        · exact Or.inl (by simp [hn])
        · exact Or.inl (by simp [hfu2])
        · rw [hulnil] at hu
          simp at hu
    · intro v hv
      simp only [List.mem_append] at hv ⊢
      rcases hv with (hv | hv) | hv
      · exact Or.inl (h2 v hv)
      · exact Or.inr (hnf_sub v hv)
      · exact Or.inr (hfu_sub v hv)
    · intro r hr
      exact List.mem_append.mpr (Or.inl (h3 r hr))
    · intro r hr
      exact h4 r hr
    · intro r hr
      intro hmem
      rw [← hul, hulnil] at hmem
      exact h5 r hr hmem
  · rw [if_neg hz]
    refine ⟨?_, ?_, ?_, ?_, ?_⟩
    · intro v hv
      rcases List.mem_append.mp hv with hvp | hvc
      · rcases h1 v hvp with hf | hu
        · exact Or.inl (by simp [hf])
        · refine Or.inr ?_
          simp only [List.map_append, List.mem_append]
          exact Or.inl hu
      · rcases hcover v hvc with hn | hfu2 | hu
        · exact Or.inl (by simp [hn])
        · exact Or.inl (by simp [hfu2])
        · refine Or.inr ?_
          simp only [List.map_append, List.mem_append]
          exact Or.inr hu
    · intro v hv
      simp only [List.mem_append] at hv ⊢
      rcases hv with (hv | hv) | hv
      · exact Or.inl (h2 v hv)
      · exact Or.inr (hnf_sub v hv)
      · exact Or.inr (hfu_sub v hv)
    · intro r hr
      rcases List.mem_append.mp hr with hro | hrn
      · exact List.mem_append.mpr (Or.inl (h3 r hro))
      · exact List.mem_append.mpr (Or.inr (hul_chunk r hrn))
    · intro r hr hmem
      have hmem2 := List.mem_filter.mp hmem
      rcases List.mem_append.mp hr with hro | hrn
      · exact h4 r hro hmem2.1
      · have : unlinked.any (fun f => decide (f.id = r.id)) = true :=
          List.any_eq_true.mpr ⟨r, hrn, by simp⟩
        simp [this] at hmem2
    · intro r hr hmem
      rcases List.mem_append.mp hr with hro | hrn
      · exact h5 r hro (unlinkFoldl_uploads_subset extnameFn unlinked acc.fs r.name hmem)
      · exact unlinkFoldl_removes extnameFn unlinked acc.fs r hrn hmem

theorem bulkInv_foldl (field : String) (uid : Nat) (ismoderator : Bool)
    (unlinkFails : String → Bool) (extnameFn : String → String)
    (cs : List (List FieldVal)) (processed : List FieldVal) (acc : ChunkAcc)
    (h : BulkInv field processed acc) :
    BulkInv field (processed ++ cs.flatten)
      (cs.foldl (bulkDeleteChunk field uid ismoderator unlinkFails extnameFn) acc) := by
  induction cs generalizing processed acc with
  | nil => simpa using h
  | cons c cs ih =>
    have h2 := bulkInv_step field uid ismoderator unlinkFails extnameFn processed acc c h
    have h3 := ih (processed ++ c) _ h2
    simpa [List.append_assoc] using h3

/-- C3: for every bulk delete by an authorized actor with a recognized field,
the values are sharded into chunks of at most `MAX_VARIABLES_CHUNK_SIZE = 999`
SQL variables whose concatenation is the whole list, and the returned `failed`
array plus the set of actually deleted values covers exactly the requested
values: every value without a scoped-select row or whose unlink errored lands
in `failed`, every successfully unlinked row is deleted from the files table,
and no deleted row's file remains in the uploads directory. -/
theorem bulkDeleteFromDb_partition (field : String) (values : List FieldVal) (uid : Nat)
    (ismoderator : Bool) (unlinkFails : String → Bool) (extnameFn : String → String)
    (db : List FileRow) (albums : List AlbumRow) (fs : SafeFs) (now : Nat)
    (hf : field = "id" ∨ field = "name") :
    (∀ c ∈ chunksOf999 values, c.length ≤ MAX_VARIABLES_CHUNK_SIZE) ∧
    (chunksOf999 values).flatten = values ∧
    (∀ v, v ∈ values ↔
      (v ∈ (bulkDeleteFromDb field values (some uid) ismoderator unlinkFails extnameFn
          db albums fs now).failed ∨
       v ∈ (bulkDeleteFromDb field values (some uid) ismoderator unlinkFails extnameFn
          db albums fs now).unlinkeds.map (rowFieldVal field))) ∧
    (∀ r ∈ (bulkDeleteFromDb field values (some uid) ismoderator unlinkFails extnameFn
        db albums fs now).unlinkeds,
      r ∉ (bulkDeleteFromDb field values (some uid) ismoderator unlinkFails extnameFn
        db albums fs now).db) ∧
    (∀ r ∈ (bulkDeleteFromDb field values (some uid) ismoderator unlinkFails extnameFn
        db albums fs now).unlinkeds,
      r.name ∉ (bulkDeleteFromDb field values (some uid) ismoderator unlinkFails extnameFn
        db albums fs now).fs.uploads) := by
  refine ⟨chunksOf999_length_le values, chunksOf999_flatten values, ?_⟩
  by_cases hempty : values = []
  · subst hempty
    have hguard : bulkDeleteFromDb field [] (some uid) ismoderator unlinkFails extnameFn
        db albums fs now =
        { failed := [], db := db, albums := albums, fs := fs, unlinkeds := [] } := by
      unfold bulkDeleteFromDb
      rw [if_pos (Or.inr (Or.inr rfl))]
    rw [hguard]
    refine ⟨?_, ?_, ?_⟩
    · intro v
      simp
    · intro r hr
      simp at hr
    · intro r hr
      simp at hr
  · have hng : ¬ ((some uid : Option Nat) = none ∨ ¬ (field = "id" ∨ field = "name") ∨
        values = []) := by
      push_neg
      exact ⟨Option.some_ne_none uid, hf, hempty⟩
    have hinv0 : BulkInv field []
        { failed := [], db := db, fs := fs, unlinkeds := [], albumids := [] } := by
      refine ⟨?_, ?_, ?_, ?_, ?_⟩ <;> intro x hx <;> simp at hx
    have hinv := bulkInv_foldl field uid ismoderator unlinkFails extnameFn
      (chunksOf999 values) [] _ hinv0
    rw [List.nil_append, chunksOf999_flatten values] at hinv
    obtain ⟨i1, i2, i3, i4, i5⟩ := hinv
    have hfailed : (bulkDeleteFromDb field values (some uid) ismoderator unlinkFails
        extnameFn db albums fs now).failed =
        ((chunksOf999 values).foldl
          (bulkDeleteChunk field uid ismoderator unlinkFails extnameFn)
          { failed := [], db := db, fs := fs, unlinkeds := [], albumids := [] }).failed := by
      unfold bulkDeleteFromDb
      rw [if_neg hng]
      rfl
    have hdb : (bulkDeleteFromDb field values (some uid) ismoderator unlinkFails
        extnameFn db albums fs now).db =
        ((chunksOf999 values).foldl
          (bulkDeleteChunk field uid ismoderator unlinkFails extnameFn)
          { failed := [], db := db, fs := fs, unlinkeds := [], albumids := [] }).db := by
      unfold bulkDeleteFromDb
      rw [if_neg hng]
      rfl
    have hfs : (bulkDeleteFromDb field values (some uid) ismoderator unlinkFails
        extnameFn db albums fs now).fs =
        ((chunksOf999 values).foldl
          (bulkDeleteChunk field uid ismoderator unlinkFails extnameFn)
          { failed := [], db := db, fs := fs, unlinkeds := [], albumids := [] }).fs := by
      unfold bulkDeleteFromDb
      rw [if_neg hng]
      rfl
    have hunl : (bulkDeleteFromDb field values (some uid) ismoderator unlinkFails
        extnameFn db albums fs now).unlinkeds =
        ((chunksOf999 values).foldl
          (bulkDeleteChunk field uid ismoderator unlinkFails extnameFn)
          { failed := [], db := db, fs := fs, unlinkeds := [], albumids := [] }).unlinkeds := by
      unfold bulkDeleteFromDb
      rw [if_neg hng]
      rfl
    rw [hfailed, hdb, hfs, hunl]
    refine ⟨?_, i4, i5⟩
    intro v
    constructor
    · exact i1 v
    · rintro (hv | hv)
      · exact i2 v hv
      · obtain ⟨r, hr, hrv⟩ := List.mem_map.mp hv
        exact hrv ▸ i3 r hr

/-- C3 witness: the partition property, instantiated at a one-value delete of
an owned file that unlinks successfully. -/
theorem bulkDeleteFromDb_partition_witness :
    FieldVal.vname "a.jpg" ∈ (bulkDeleteFromDb "name" [FieldVal.vname "a.jpg"] (some 1)
        false (fun _ => false) (fun _ => ".jpg")
        [{ id := 1, name := "a.jpg", original := "a.jpg", type := "image/jpeg",
           size := 5, hash := some "h", ip := none, userid := some 1,
           albumid := none, timestamp := 0, expirydate := none }]
        [] { uploads := ["a.jpg"], thumbs := ["a.png"] } 0).failed ∨
    FieldVal.vname "a.jpg" ∈ ((bulkDeleteFromDb "name" [FieldVal.vname "a.jpg"] (some 1)
        false (fun _ => false) (fun _ => ".jpg")
        [{ id := 1, name := "a.jpg", original := "a.jpg", type := "image/jpeg",
           size := 5, hash := some "h", ip := none, userid := some 1,
           albumid := none, timestamp := 0, expirydate := none }]
        [] { uploads := ["a.jpg"], thumbs := ["a.png"] } 0).unlinkeds.map
          (rowFieldVal "name")) :=
  ((bulkDeleteFromDb_partition "name" [FieldVal.vname "a.jpg"] 1 false
    (fun _ => false) (fun _ => ".jpg")
    [{ id := 1, name := "a.jpg", original := "a.jpg", type := "image/jpeg",
       size := 5, hash := some "h", ip := none, userid := some 1,
       albumid := none, timestamp := 0, expirydate := none }]
    [] { uploads := ["a.jpg"], thumbs := ["a.png"] } 0
    (Or.inr rfl)).2.2.1 (FieldVal.vname "a.jpg")).mp (by decide)

/-- C9: `bulkDeleteFromDb` with a falsy user, an unrecognized field or an
empty values array deletes nothing — tables and disk are untouched — and
returns an empty `failed` array; consequently a bulk-delete API request
carrying an unrecognized (truthy) field value answers
`{success: true, failed: []}` although no row was deleted, while an
empty-string field is coerced to the "id" default by `field || 'id'` before
it ever reaches the guard. -/
theorem bulkDeleteFromDb_guard_noop (field : String) (values : List FieldVal)
    (user : Option Nat) (ismoderator : Bool) (unlinkFails : String → Bool)
    (extnameFn : String → String) (db : List FileRow) (albums : List AlbumRow)
    (fs : SafeFs) (now : Nat)
    (hguard : user = none ∨ ¬ (field = "id" ∨ field = "name") ∨ values = []) :
    bulkDeleteFromDb field values user ismoderator unlinkFails extnameFn db albums fs now =
      { failed := [], db := db, albums := albums, fs := fs, unlinkeds := [] } ∧
    (∀ (fld : String) (vals : List FieldVal) (uid : Nat),
      ¬ (fld = "id" ∨ fld = "name") → fld ≠ "" → vals ≠ [] →
      bulkDelete { field := some fld, values := some vals } uid ismoderator unlinkFails
          extnameFn db albums fs now =
        .ok ((true, []),
          { failed := [], db := db, albums := albums, fs := fs, unlinkeds := [] })) ∧
    (∀ (vals : Option (List FieldVal)) (uid : Nat),
      bulkDelete { field := some "", values := vals } uid ismoderator unlinkFails
          extnameFn db albums fs now =
        bulkDelete { field := none, values := vals } uid ismoderator unlinkFails
          extnameFn db albums fs now) := by
  refine ⟨?_, ?_, ?_⟩
  · unfold bulkDeleteFromDb
    rw [if_pos hguard]
  · intro fld vals uid hbad hfld hne
    have hg : bulkDeleteFromDb fld vals (some uid) ismoderator unlinkFails extnameFn
        db albums fs now =
        { failed := [], db := db, albums := albums, fs := fs, unlinkeds := [] } := by
      unfold bulkDeleteFromDb
      rw [if_pos (Or.inr (Or.inl hbad))]
    unfold bulkDelete
    dsimp only
    rw [if_neg (by simpa using hne)]
    rw [if_neg hfld]
    rw [hg]
  · intro vals uid
    unfold bulkDelete
    dsimp only
    rw [if_pos rfl]

/-- C9 witness: a `POST /api/upload/bulkdelete` with `field = "albumid"`
(unrecognized) and one value answers success with an empty `failed` array
while the table and the disk are unchanged. -/
theorem bulkDeleteFromDb_guard_noop_witness :
    bulkDeleteFromDb "albumid" [FieldVal.vid 7] none false (fun _ => false)
      (fun _ => "") [] [] { uploads := [], thumbs := [] } 0 =
      { failed := [], db := [], albums := [], fs := { uploads := [], thumbs := [] },
        unlinkeds := [] } ∧
    bulkDelete { field := some "albumid", values := some [FieldVal.vid 7] } 1 false
        (fun _ => false) (fun _ => "") [] [] { uploads := [], thumbs := [] } 0 =
      .ok ((true, []),
        { failed := [], db := [], albums := [], fs := { uploads := [], thumbs := [] },
          unlinkeds := [] }) ∧
    bulkDelete { field := some "", values := some [FieldVal.vid 7] } 1 false
        (fun _ => false) (fun _ => "") [] [] { uploads := [], thumbs := [] } 0 =
      bulkDelete { field := none, values := some [FieldVal.vid 7] } 1 false
        (fun _ => false) (fun _ => "") [] [] { uploads := [], thumbs := [] } 0 := by
  have h := bulkDeleteFromDb_guard_noop "albumid" [FieldVal.vid 7] none false
    (fun _ => false) (fun _ => "") [] [] { uploads := [], thumbs := [] } 0
    (Or.inl rfl)
  exact ⟨h.1, h.2.1 "albumid" [FieldVal.vid 7] 1 (by decide) (by decide) (by decide),
    h.2.2 (some [FieldVal.vid 7]) 1⟩

/-! ### Retention-period inheritance (utils controller, retentionPeriods)

Group ranks come from the permission controller's `permissions` object; the
guest pseudo-group `_` is added at rank -1.  Config values are hours, possibly
fractional, with `null` as the documented inherit-the-default placeholder. -/

/-- The sanitize step: keep finite non-negative numbers and the `null`
placeholder; a missing or empty entry becomes `[]`. -/
def sanitizeRetention (cfg : List (String × List (Option Rat))) (name : String) :
    List (Option Rat) :=
  match mlookup cfg name with
  | some l =>
    if l ≠ [] then
      l.filter (fun v => match v with | some x => decide (0 ≤ x) | none => true)
    else []
  | none => []

/-- Stable insertion into a rank-sorted group list (`Array.sort` with the
comparator on group values). -/
def insertRanked (x : String × Int) : List (String × Int) → List (String × Int)
  | [] => [x]
  | y :: ys => if y.2 ≤ x.2 then y :: insertRanked x ys else x :: y :: ys

def sortRanked : List (String × Int) → List (String × Int)
  | [] => []
  | x :: xs => insertRanked x (sortRanked xs)

/-- First-occurrence deduplication (`a.indexOf(v) === i`). -/
def dedupFirstRat : List Rat → List Rat
  | [] => []
  | x :: xs => x :: dedupFirstRat (xs.filter (fun y => y ≠ x))
termination_by l => l.length
decreasing_by
  simp only [List.length_cons]
  exact Nat.lt_succ_of_le (List.length_filter_le _ _)

/-- Ascending insertion sort (`.sort((a, b) => a - b)`). -/
def insertAsc (x : Rat) : List Rat → List Rat
  | [] => [x]
  | y :: ys => if x ≤ y then x :: y :: ys else y :: insertAsc x ys

def sortAsc : List Rat → List Rat
  | [] => []
  | x :: xs => insertAsc x (sortAsc xs)

/-- One iteration of the group loop: `prevs` is the already-processed prefix
of the rank-sorted group list, in ascending order.  The group's own sanitized
list seeds the periods and the default; every strictly lower-ranked earlier
group is prepended (iterating nearest-first for the default inheritance), the
merged list is uniquified without nulls and sorted ascending. -/
def retentionStep (S : String → List (Option Rat)) (prevs : List (String × Int))
    (current : String × Int) (ret : Retentions) : Retentions :=
  let lowers := prevs.filter (fun l => l.2 < current.2)
  let merged := lowers.foldr (fun l acc => S l.1 ++ acc) (S current.1)
  let dflt0 : Option Rat := match S current.1 with | [] => none | x :: _ => x
  let dflt := lowers.reverse.foldl
    (fun d l =>
      match d with
      | some v => some v
      | none => (mlookup ret.default l.1).getD none)
    dflt0
  let newp := sortAsc (dedupFirstRat (merged.filterMap id))
  { enabled := ret.enabled || decide (newp ≠ [])
    periods := minsert ret.periods current.1 newp
    default := minsert ret.default current.1 dflt }

def retentionLoop (S : String → List (Option Rat)) :
    List (String × Int) → List (String × Int) → Retentions → Retentions
  | _, [], ret => ret
  | prevs, c :: rest, ret =>
    retentionLoop S (prevs ++ [c]) rest (retentionStep S prevs c ret)

/-- Translation of the `retentionPeriods` branch of the utils controller:
sanitize the config, sort the groups (guests at rank -1) ascending by rank,
and run the inheritance loop. -/
def buildRetentions (permissions : List (String × Int))
    (cfg : List (String × List (Option Rat))) : Retentions :=
  retentionLoop (sanitizeRetention cfg) []
    (sortRanked (("_", (-1 : Int)) :: permissions))
    { enabled := false, periods := [], default := [] }

/-- The head of the group's own sanitized list, then descending through the
given group names, the first defined head value — the default the code
actually computes. -/
def firstNonNullHead (S : String → List (Option Rat)) : List String → Option Rat
  | [] => none
  | g :: rest =>
    match (match S g with | [] => none | x :: _ => x) with
    | some v => some v
    | none => firstNonNullHead S rest

/-- The default rule exactly as the claim words it, over the group and its
lower-ranked groups in descending rank order: the first element of the
group's own configured list or, only when that list is empty, the nearest
lower-ranked group's default. -/
def claimDefault (S : String → List (Option Rat)) : List String → Option Rat
  | [] => none
  | g :: rest =>
    match S g with
    | [] => claimDefault S rest
    | x :: _ => x

/-- C6 counterexample: the config documents a leading `null` as
"use the previous group's default".  With guests at `[24]` and group `user`
(rank 0) at `[null, 0]`, the user group's own configured list is nonempty, yet
the code's computed default is 24 — inherited from the guests — while the
claim's rule yields the first element `null`; the code also does not take the
first period 0.  The claim's "first element of its own configured list" is
therefore false on this input. -/
theorem retentions_null_head_default_counterexample :
    mlookup (buildRetentions [("user", 0)]
        [("_", [some 24]), ("user", [none, some 0])]).default "user" =
      some (some 24) ∧
    claimDefault (sanitizeRetention [("_", [some 24]), ("user", [none, some 0])])
        ["user", "_"] = none ∧
    sanitizeRetention [("_", [some 24]), ("user", [none, some 0])] "user" ≠ [] ∧
    (24 : Rat) ≠ 0 := by
  refine ⟨?_, ?_, ?_, ?_⟩
  · rfl
  · rfl
  · decide
  · decide

theorem insertRanked_perm (x : String × Int) (l : List (String × Int)) :
    List.Perm (insertRanked x l) (x :: l) := by
  induction l with
  | nil => exact List.Perm.refl _
  | cons y ys ih =>
    unfold insertRanked
    by_cases h : y.2 ≤ x.2
    · rw [if_pos h]
      exact (ih.cons y).trans (List.Perm.swap x y ys)
    · rw [if_neg h]

theorem sortRanked_perm (l : List (String × Int)) : List.Perm (sortRanked l) l := by
  induction l with
  | nil => exact List.Perm.refl _
  | cons x xs ih =>
    unfold sortRanked
    exact (insertRanked_perm x (sortRanked xs)).trans (ih.cons x)

theorem insertRanked_pairwise (x : String × Int) (l : List (String × Int))
    (h : l.Pairwise (fun a b => a.2 ≤ b.2)) :
    (insertRanked x l).Pairwise (fun a b => a.2 ≤ b.2) := by
  induction l with
  | nil => simp [insertRanked]
  | cons y ys ih =>
    unfold insertRanked
    obtain ⟨hy, hys⟩ := List.pairwise_cons.mp h
    by_cases hle : y.2 ≤ x.2
    · rw [if_pos hle]
      refine List.pairwise_cons.mpr ⟨?_, ih hys⟩
      intro a ha
      rcases List.mem_cons.mp ((insertRanked_perm x ys).mem_iff.mp ha) with h2 | h2
      · rw [h2]; exact hle
      · exact hy a h2
    · rw [if_neg hle]
      refine List.pairwise_cons.mpr ⟨?_, h⟩
      intro a ha
      rcases List.mem_cons.mp ha with h2 | h2
      · exact h2 ▸ le_of_not_le hle
      · exact le_trans (le_of_not_le hle) (hy a h2)

theorem sortRanked_pairwise (l : List (String × Int)) :
    (sortRanked l).Pairwise (fun a b => a.2 ≤ b.2) := by
  induction l with
  | nil => exact List.Pairwise.nil
  | cons x xs ih => exact insertRanked_pairwise x (sortRanked xs) ih

theorem insertAsc_mem (x v : Rat) (l : List Rat) :
    v ∈ insertAsc x l ↔ v = x ∨ v ∈ l := by
  induction l with
  | nil => simp [insertAsc]
  | cons y ys ih =>
    unfold insertAsc
    by_cases h : x ≤ y
    · rw [if_pos h]
      simp
    · rw [if_neg h]
      simp only [List.mem_cons, ih]
      tauto

theorem insertAsc_pairwise (x : Rat) (l : List Rat)
    (h : l.Pairwise (· ≤ ·)) : (insertAsc x l).Pairwise (· ≤ ·) := by
  induction l with
  | nil => simp [insertAsc]
  | cons y ys ih =>
    unfold insertAsc
    obtain ⟨hy, hys⟩ := List.pairwise_cons.mp h
    by_cases hle : x ≤ y
    · rw [if_pos hle]
      refine List.pairwise_cons.mpr ⟨?_, h⟩
      intro a ha
      rcases List.mem_cons.mp ha with h2 | h2
      · exact h2 ▸ hle
      · exact le_trans hle (hy a h2)
    · rw [if_neg hle]
      refine List.pairwise_cons.mpr ⟨?_, ih hys⟩
      intro a ha
      rcases (insertAsc_mem x a ys).mp ha with h2 | h2
      · exact h2 ▸ le_of_not_le hle
      · exact hy a h2

theorem sortAsc_mem (v : Rat) (l : List Rat) : v ∈ sortAsc l ↔ v ∈ l := by
  induction l with
  | nil => simp [sortAsc]
  | cons x xs ih =>
    unfold sortAsc
    rw [insertAsc_mem]
    simp [ih]

theorem sortAsc_pairwise (l : List Rat) : (sortAsc l).Pairwise (· ≤ ·) := by
  induction l with
  | nil => exact List.Pairwise.nil
  | cons x xs ih => exact insertAsc_pairwise x (sortAsc xs) ih

theorem insertAsc_nodup (x : Rat) (l : List Rat) (hx : x ∉ l) (h : l.Nodup) :
    (insertAsc x l).Nodup := by
  induction l with
  | nil => simp [insertAsc]
  | cons y ys ih =>
    unfold insertAsc
    obtain ⟨hy, hys⟩ := List.nodup_cons.mp h
    by_cases hle : x ≤ y
    · rw [if_pos hle]
      exact List.nodup_cons.mpr ⟨hx, h⟩
    · rw [if_neg hle]
      refine List.nodup_cons.mpr ⟨?_, ih (fun hc => hx (List.mem_cons_of_mem _ hc)) hys⟩
      intro hc
      rcases (insertAsc_mem x y ys).mp hc with h2 | h2
      · exact hx (h2 ▸ List.mem_cons_self _ _)
      · exact hy h2

theorem sortAsc_nodup (l : List Rat) (h : l.Nodup) : (sortAsc l).Nodup := by
  induction l with
  | nil => exact List.nodup_nil
  | cons x xs ih =>
    obtain ⟨hx, hxs⟩ := List.nodup_cons.mp h
    exact insertAsc_nodup x (sortAsc xs) (fun hc => hx ((sortAsc_mem x xs).mp hc)) (ih hxs)

theorem dedupFirstRat_mem (v : Rat) (l : List Rat) : v ∈ dedupFirstRat l ↔ v ∈ l := by
  induction l using dedupFirstRat.induct with
  | case1 => rw [dedupFirstRat]
  | case2 x xs ih =>
    rw [dedupFirstRat]
    simp only [List.mem_cons, ih, List.mem_filter]
    constructor
    · rintro (h | ⟨h, -⟩)
      · exact Or.inl h
      · exact Or.inr h
    · rintro (h | h)
      · exact Or.inl h
      · by_cases hvx : v = x
        · exact Or.inl hvx
        · exact Or.inr ⟨h, by simpa using hvx⟩

theorem dedupFirstRat_nodup (l : List Rat) : (dedupFirstRat l).Nodup := by
  induction l using dedupFirstRat.induct with
  | case1 => rw [dedupFirstRat]; exact List.nodup_nil
  | case2 x xs ih =>
    rw [dedupFirstRat]
    refine List.nodup_cons.mpr ⟨?_, ih⟩
    intro hc
    have := (dedupFirstRat_mem x _).mp hc
    simp [List.mem_filter] at this

theorem foldr_retention_mem (S : String → List (Option Rat)) (L : List (String × Int))
    (base : List (Option Rat)) (x : Option Rat) :
    x ∈ L.foldr (fun l acc => S l.1 ++ acc) base ↔
      x ∈ base ∨ ∃ l ∈ L, x ∈ S l.1 := by
  induction L with
  | nil => simp
  | cons l0 ls ih =>
    simp only [List.foldr_cons, List.mem_append, ih]
    constructor
    · rintro (h | h | ⟨l, hl, hx⟩)
      · exact Or.inr ⟨l0, List.mem_cons_self _ _, h⟩
      · exact Or.inl h
      · exact Or.inr ⟨l, List.mem_cons_of_mem _ hl, hx⟩
    · rintro (h | ⟨l, hl, hx⟩)
      · exact Or.inr (Or.inl h)
      · rcases List.mem_cons.mp hl with h2 | h2
        · exact Or.inl (h2 ▸ hx)
        · exact Or.inr (Or.inr ⟨l, h2, hx⟩)

/-- The chain of already-computed defaults along a descending-rank group list:
each group's stored default is the first non-null own-list head scanning
itself then the groups below it. -/
def DefaultsChain (S : String → List (Option Rat)) (ret : Retentions) :
    List (String × Int) → Prop
  | [] => True
  | q :: rest =>
    mlookup ret.default q.1 = some (firstNonNullHead S ((q :: rest).map Prod.fst)) ∧
    DefaultsChain S ret rest

theorem defaultsChain_congr (S : String → List (Option Rat)) (ret ret2 : Retentions)
    (Q : List (String × Int))
    (h : ∀ q ∈ Q, mlookup ret2.default q.1 = mlookup ret.default q.1)
    (hc : DefaultsChain S ret Q) : DefaultsChain S ret2 Q := by
  induction Q with
  | nil => exact trivial
  | cons q rest ih =>
    obtain ⟨h1, h2⟩ := hc
    exact ⟨(h q (List.mem_cons_self _ _)).trans h1,
      ih (fun q2 hq2 => h q2 (List.mem_cons_of_mem _ hq2)) h2⟩

theorem fold_default_some (ret : Retentions) (Q : List (String × Int)) (v : Rat) :
    Q.foldl (fun d l =>
      match d with
      | some v2 => some v2
      | none => (mlookup ret.default l.1).getD none) (some v) = some v := by
  induction Q with
  | nil => rfl
  | cons q rest ih => exact ih

theorem fold_default_eq (S : String → List (Option Rat)) (ret : Retentions)
    (Q : List (String × Int)) (d0 : Option Rat) (hchain : DefaultsChain S ret Q) :
    Q.foldl (fun d l =>
      match d with
      | some v2 => some v2
      | none => (mlookup ret.default l.1).getD none) d0 =
    (match d0 with
     | some v => some v
     | none => firstNonNullHead S (Q.map Prod.fst)) := by
  induction Q generalizing d0 with
  | nil =>
    cases d0 with
    | some v => rfl
    | none => rfl
  | cons q rest ih =>
    obtain ⟨hq, hrest⟩ := hchain
    cases d0 with
    | some v => exact fold_default_some ret (q :: rest) v
    | none =>
      have hstep : (q :: rest).foldl (fun d l =>
          match d with
          | some v2 => some v2
          | none => (mlookup ret.default l.1).getD none) none =
          rest.foldl (fun d l =>
            match d with
            | some v2 => some v2
            | none => (mlookup ret.default l.1).getD none)
            ((mlookup ret.default q.1).getD none) := rfl
      rw [hstep, hq, Option.getD_some]
      cases hF : firstNonNullHead S ((q :: rest).map Prod.fst) with
      | some v => exact fold_default_some ret rest v
      | none =>
        have hunf : firstNonNullHead S ((q :: rest).map Prod.fst) =
            match (match S q.1 with | [] => none | x :: _ => x) with
            | some v => some v
            | none => firstNonNullHead S (rest.map Prod.fst) := rfl
        rw [hunf] at hF
        have hownq : firstNonNullHead S (List.map Prod.fst rest) = none := by
          revert hF
          cases hhead : (match S q.1 with | [] => none | x :: _ => x) with
          | some v => intro hF; exact Option.noConfusion hF
          | none => intro hF; exact hF
        rw [ih none hrest]
        exact hownq

/-- The computed periods of every processed group are the sorted, deduplicated
union of its own and all strictly lower-ranked processed groups' sanitized
non-null values. -/
def PeriodsOK (S : String → List (Option Rat)) (P : List (String × Int))
    (ret : Retentions) : Prop :=
  ∀ x ∈ P, ∃ p, mlookup ret.periods x.1 = some p ∧
    p.Pairwise (· ≤ ·) ∧ p.Nodup ∧
    ∀ v : Rat, v ∈ p ↔ (some v ∈ S x.1 ∨ ∃ l ∈ P, l.2 < x.2 ∧ some v ∈ S l.1)

theorem retentionStep_spec (S : String → List (Option Rat)) (P : List (String × Int))
    (c : String × Int) (ret : Retentions)
    (hlt : ∀ l ∈ P, l.2 < c.2) (hname : ∀ l ∈ P, l.1 ≠ c.1)
    (hP : PeriodsOK S P ret) (hD : DefaultsChain S ret P.reverse) :
    PeriodsOK S (P ++ [c]) (retentionStep S P c ret) ∧
    DefaultsChain S (retentionStep S P c ret) ((P ++ [c]).reverse) := by
  have hfilter : P.filter (fun l => decide (l.2 < c.2)) = P :=
    List.filter_eq_self.mpr (fun a ha => by simpa using hlt a ha)
  have hper : (retentionStep S P c ret).periods =
      minsert ret.periods c.1
        (sortAsc (dedupFirstRat
          ((P.foldr (fun l acc => S l.1 ++ acc) (S c.1)).filterMap id))) := by
    unfold retentionStep
    rw [hfilter]
  have hdef : (retentionStep S P c ret).default =
      minsert ret.default c.1
        (P.reverse.foldl (fun d l =>
          match d with
          | some v2 => some v2
          | none => (mlookup ret.default l.1).getD none)
          (match S c.1 with | [] => none | x :: _ => x)) := by
    unfold retentionStep
    rw [hfilter]
  constructor
  · intro x hx
    rcases List.mem_append.mp hx with hxP | hxc
    · obtain ⟨p, hp, hsorted, hnodup, hiff⟩ := hP x hxP
      refine ⟨p, ?_, hsorted, hnodup, ?_⟩
      · rw [hper, mlookup_minsert_ne _ _ _ _ (hname x hxP), hp]
      · intro v
        rw [hiff v]
        constructor
        · rintro (h | ⟨l, hl, hrank, hv⟩)
          · exact Or.inl h
          · exact Or.inr ⟨l, List.mem_append.mpr (Or.inl hl), hrank, hv⟩
        · rintro (h | ⟨l, hl, hrank, hv⟩)
          · exact Or.inl h
          · rcases List.mem_append.mp hl with h2 | h2
            · exact Or.inr ⟨l, h2, hrank, hv⟩
            · rw [List.mem_singleton.mp h2] at hrank
              exact absurd (lt_trans hrank (hlt x hxP)) (lt_irrefl _)
    · rw [List.mem_singleton.mp hxc]
      refine ⟨sortAsc (dedupFirstRat
        ((P.foldr (fun l acc => S l.1 ++ acc) (S c.1)).filterMap id)), ?_, ?_, ?_, ?_⟩
      · rw [hper, mlookup_minsert_self]
      · exact sortAsc_pairwise _
      · exact sortAsc_nodup _ (dedupFirstRat_nodup _)
      · intro v
        rw [sortAsc_mem, dedupFirstRat_mem, List.mem_filterMap]
        constructor
        · rintro ⟨a, ha, hav⟩
          rw [show (id a : Option Rat) = a from rfl] at hav
          subst hav
          rcases (foldr_retention_mem S P (S c.1) (some v)).mp ha with h | ⟨l, hl, hv⟩
          · exact Or.inl h
          · exact Or.inr ⟨l, List.mem_append.mpr (Or.inl hl), hlt l hl, hv⟩
        · rintro (h | ⟨l, hl, hrank, hv⟩)
          · exact ⟨some v, (foldr_retention_mem S P (S c.1) (some v)).mpr (Or.inl h), rfl⟩
          · rcases List.mem_append.mp hl with h2 | h2
            · exact ⟨some v,
                (foldr_retention_mem S P (S c.1) (some v)).mpr (Or.inr ⟨l, h2, hv⟩), rfl⟩
            · rw [List.mem_singleton.mp h2] at hrank
              exact absurd hrank (lt_irrefl _)
  · rw [List.reverse_append, List.reverse_singleton, List.singleton_append]
    refine ⟨?_, ?_⟩
    · rw [hdef, mlookup_minsert_self]
      congr 1
      rw [fold_default_eq S ret P.reverse _ hD]
      rfl
    · refine defaultsChain_congr S ret _ P.reverse ?_ hD
      intro q hq
      rw [hdef, mlookup_minsert_ne _ _ _ _ (hname q (List.mem_reverse.mp hq))]

theorem retentionLoop_spec (S : String → List (Option Rat)) (R : List (String × Int)) :
    ∀ (P : List (String × Int)) (ret : Retentions),
    (P ++ R).Pairwise (fun a b => a.2 < b.2) →
    ((P ++ R).map Prod.fst).Nodup →
    PeriodsOK S P ret → DefaultsChain S ret P.reverse →
    PeriodsOK S (P ++ R) (retentionLoop S P R ret) ∧
    DefaultsChain S (retentionLoop S P R ret) ((P ++ R).reverse) := by
  induction R with
  | nil =>
    intro P ret _ _ h1 h2
    rw [List.append_nil]
    exact ⟨h1, h2⟩
  | cons c rest ih =>
    intro P ret hpair hnodup h1 h2
    have hlt : ∀ l ∈ P, l.2 < c.2 := by
      intro l hl
      exact ((List.pairwise_append.mp hpair).2.2 l hl c (List.mem_cons_self _ _))
    have hname : ∀ l ∈ P, l.1 ≠ c.1 := by
      intro l hl hc
      rw [List.map_append] at hnodup
      have hdisj := (List.nodup_append.mp hnodup).2.2
      exact hdisj (List.mem_map_of_mem Prod.fst hl)
        (hc ▸ List.mem_map_of_mem Prod.fst (List.mem_cons_self c rest))
    obtain ⟨hstepP, hstepD⟩ := retentionStep_spec S P c ret hlt hname h1 h2
    have hmain := ih (P ++ [c]) (retentionStep S P c ret)
      (by rw [List.append_assoc, List.singleton_append]; exact hpair)
      (by rw [List.append_assoc, List.singleton_append]; exact hnodup)
      hstepP hstepD
    rw [show retentionLoop S P (c :: rest) ret =
      retentionLoop S (P ++ [c]) rest (retentionStep S P c ret) from rfl]
    rw [show P ++ c :: rest = (P ++ [c]) ++ rest by
      rw [List.append_assoc, List.singleton_append]]
    exact hmain

theorem defaultsChain_elem (S : String → List (Option Rat)) (ret : Retentions)
    (Q1 : List (String × Int)) :
    ∀ (Q : List (String × Int)) (Q2 : List (String × Int)) (q : String × Int),
    DefaultsChain S ret Q → Q = Q1 ++ q :: Q2 →
    mlookup ret.default q.1 = some (firstNonNullHead S ((q :: Q2).map Prod.fst)) := by
  induction Q1 with
  | nil =>
    intro Q Q2 q hc heq
    subst heq
    exact hc.1
  | cons a as ih =>
    intro Q Q2 q hc heq
    subst heq
    exact ih _ Q2 q hc.2 rfl

/-- C6 (amended): for every usergroup (guests being the pseudo-group `_` at
rank -1), assuming pairwise-distinct ranks and distinct group names, the
computed allowed retention periods are exactly the deduplicated,
ascending-sorted union of the group's own sanitized non-null configured
periods and those of all strictly lower-ranked groups; and the group's
stored default is the first non-null list head found scanning the group's
own sanitized list and then the lower-ranked groups' lists in descending
rank order — so a leading `null` placeholder, not only an empty list, also
defers to the nearest lower-ranked group, and null entries never enter the
allowed set. -/
theorem retentions_inheritance (permissions : List (String × Int))
    (cfg : List (String × List (Option Rat))) (g : String) (rk : Int)
    (hdist : (("_", (-1 : Int)) :: permissions).Pairwise (fun a b => a.2 ≠ b.2))
    (hnames : ((("_", (-1 : Int)) :: permissions).map Prod.fst).Nodup)
    (hg : (g, rk) ∈ ("_", (-1 : Int)) :: permissions) :
    (∃ p, mlookup (buildRetentions permissions cfg).periods g = some p ∧
      p.Pairwise (· ≤ ·) ∧ p.Nodup ∧
      (∀ v : Rat, v ∈ p ↔ (some v ∈ sanitizeRetention cfg g ∨
        ∃ l ∈ ("_", (-1 : Int)) :: permissions, l.2 < rk ∧
          some v ∈ sanitizeRetention cfg l.1))) ∧
    mlookup (buildRetentions permissions cfg).default g =
      some (firstNonNullHead (sanitizeRetention cfg)
        (g :: ((sortRanked (("_", (-1 : Int)) :: permissions)).filter
          (fun l => decide (l.2 < rk))).reverse.map Prod.fst)) := by
  have hperm := sortRanked_perm (("_", (-1 : Int)) :: permissions)
  have hle := sortRanked_pairwise (("_", (-1 : Int)) :: permissions)
  have hne : (sortRanked (("_", (-1 : Int)) :: permissions)).Pairwise
      (fun a b => a.2 ≠ b.2) :=
    (hperm.pairwise_iff (fun h => Ne.symm h)).mpr hdist
  have hlt : (sortRanked (("_", (-1 : Int)) :: permissions)).Pairwise
      (fun a b => a.2 < b.2) :=
    (hle.and hne).imp (fun hab => lt_of_le_of_ne hab.1 hab.2)
  have hnod : ((sortRanked (("_", (-1 : Int)) :: permissions)).map Prod.fst).Nodup :=
    ((hperm.map Prod.fst).nodup_iff).mpr hnames
  obtain ⟨hPOK, hchain⟩ := retentionLoop_spec (sanitizeRetention cfg)
    (sortRanked (("_", (-1 : Int)) :: permissions)) []
    { enabled := false, periods := [], default := [] }
    (by simpa using hlt) (by simpa using hnod)
    (fun x hx => absurd hx (List.not_mem_nil x)) trivial
  rw [List.nil_append] at hPOK hchain
  have hbr : buildRetentions permissions cfg =
      retentionLoop (sanitizeRetention cfg) []
        (sortRanked (("_", (-1 : Int)) :: permissions))
        { enabled := false, periods := [], default := [] } := rfl
  have hmem : (g, rk) ∈ sortRanked (("_", (-1 : Int)) :: permissions) :=
    hperm.mem_iff.mpr hg
  constructor
  · obtain ⟨p, hp, hsorted, hnodup, hiff⟩ := hPOK (g, rk) hmem
    refine ⟨p, by rw [hbr]; exact hp, hsorted, hnodup, ?_⟩
    intro v
    constructor
    · intro hvp
      rcases (hiff v).mp hvp with h | ⟨l, hl, hr, hv⟩
      · exact Or.inl h
      · exact Or.inr ⟨l, hperm.mem_iff.mp hl, hr, hv⟩
    · rintro (h | ⟨l, hl, hr, hv⟩)
      · exact (hiff v).mpr (Or.inl h)
      · exact (hiff v).mpr (Or.inr ⟨l, hperm.mem_iff.mpr hl, hr, hv⟩)
  · obtain ⟨A, B, hAB⟩ := List.append_of_mem hmem
    have hltAB := hAB ▸ hlt
    have hsplit := List.pairwise_append.mp hltAB
    have hAlt : ∀ a ∈ A, a.2 < rk := fun a ha =>
      hsplit.2.2 a ha (g, rk) (List.mem_cons_self _ _)
    have hBgt : ∀ b ∈ B, rk < b.2 :=
      (List.pairwise_cons.mp hsplit.2.1).1
    have hfA : (sortRanked (("_", (-1 : Int)) :: permissions)).filter
        (fun l => decide (l.2 < rk)) = A := by
      rw [hAB, List.filter_append]
      have h1 : A.filter (fun l => decide (l.2 < rk)) = A :=
        List.filter_eq_self.mpr (fun a ha => by simpa using hAlt a ha)
      have h2 : ((g, rk) :: B).filter (fun l => decide (l.2 < rk)) = [] := by
        rw [List.filter_cons]
        rw [if_neg (by simp)]
        exact List.filter_eq_nil_iff.mpr
          (fun b hb => by simpa using not_lt.mpr (le_of_lt (hBgt b hb)))
      rw [h1, h2, List.append_nil]
    have hrev : (sortRanked (("_", (-1 : Int)) :: permissions)).reverse =
        B.reverse ++ ((g, rk) :: A.reverse) := by
      rw [hAB, List.reverse_append, List.reverse_cons, List.append_assoc,
        List.singleton_append]
    have hdg := defaultsChain_elem (sanitizeRetention cfg) _ B.reverse _
      A.reverse (g, rk) hchain hrev
    rw [hbr, hfA]
    simpa using hdg

/-- C6 witness: guests at rank -1 with configured periods `[24]`, group
`user` at rank 0 with `[null, 0]`; the characterization holds for `user`. -/
theorem retentions_inheritance_witness :
    (∃ p, mlookup (buildRetentions [("user", (0 : Int))]
        [("_", [some (24 : Rat)]), ("user", [none, some 0])]).periods "user" =
          some p ∧
      p.Pairwise (· ≤ ·) ∧ p.Nodup ∧
      (∀ v : Rat, v ∈ p ↔ (some v ∈ sanitizeRetention
          [("_", [some (24 : Rat)]), ("user", [none, some 0])] "user" ∨
        ∃ l ∈ ("_", (-1 : Int)) :: [("user", (0 : Int))], l.2 < (0 : Int) ∧
          some v ∈ sanitizeRetention
            [("_", [some (24 : Rat)]), ("user", [none, some 0])] l.1))) ∧
    mlookup (buildRetentions [("user", (0 : Int))]
        [("_", [some (24 : Rat)]), ("user", [none, some 0])]).default "user" =
      some (firstNonNullHead (sanitizeRetention
          [("_", [some (24 : Rat)]), ("user", [none, some 0])])
        ("user" :: ((sortRanked (("_", (-1 : Int)) :: [("user", (0 : Int))])).filter
          (fun l => decide (l.2 < (0 : Int)))).reverse.map Prod.fst)) :=
  retentions_inheritance [("user", 0)]
    [("_", [some 24]), ("user", [none, some 0])] "user" 0
    (by decide) (by decide) (by decide)

end Lolisafe
